import Mathlib

/-!
# DataLog24H: the 24 hour data logging class of the ZUNO RM80 radiation monitor

A shallow embedding of `DataLog24H.h` / `DataLog24H.cpp` and the properties of its
cascading mean computation.

Modelling decisions.

* `int` and `unsigned long` have implementation-defined widths; `ArduinoTypes.h`, which
  would fix the target, is not part of the sources.  The widths are therefore a parameter
  (`Platform`); the theorems hold for every platform with at least 16 bit `int` and at
  least 32 bit `unsigned long` (the minimum widths C++ guarantees).  The Z-Uno target is
  `zuno` (16 bit `int`, 32 bit `unsigned long`).
* An `int` value is an `Int`; every `+=` on an `int` is followed by a two's complement
  wrap-around to the `int` width.  Sums that AddData throws away (the ones that still
  contain `IntNA` slots) do leave the 16 bit range, so the wrap-around is part of the model;
  theorems that need a sum to be exact say so as a hypothesis on that sum.
* `Counter++` on the `unsigned long` counter is `(Counter + 1) % 2 ^ ulongBits`.
* `Data` is the list of the 39 array elements; `GetData1M`, `GetData5M`, `GetData1H`
  return the part of the array that the returned pointer is documented to designate.
-/

set_option autoImplicit false
set_option linter.dupNamespace false

/-! ## Platform and machine integers -/

/-- Widths, in bits, of the two integer types the class uses. -/
structure Platform where
  /-- Width of `int`. -/
  intBits : Nat
  /-- Width of `unsigned long`. -/
  ulongBits : Nat
  deriving DecidableEq, Repr

/-- The Z-Uno target: 16 bit `int`, 32 bit `unsigned long`. -/
def zuno : Platform := ⟨16, 32⟩

/-- A platform whose `int` has at least 16 bits and whose `unsigned long` has at least 32. -/
def Platform.Conforming (P : Platform) : Prop := 16 ≤ P.intBits ∧ 32 ≤ P.ulongBits

instance (P : Platform) : Decidable P.Conforming := by
  unfold Platform.Conforming; infer_instance

/-- Two's complement wrap-around of an integer to the `int` width. -/
def Platform.wrapInt (P : Platform) (x : Int) : Int :=
  (x + 2 ^ (P.intBits - 1)) % 2 ^ P.intBits - 2 ^ (P.intBits - 1)

/-- Representable as an `int`. -/
def Platform.InRange (P : Platform) (x : Int) : Prop :=
  -(2 ^ (P.intBits - 1)) ≤ x ∧ x < 2 ^ (P.intBits - 1)

instance (P : Platform) (x : Int) : Decidable (P.InRange x) := by
  unfold Platform.InRange; infer_instance

/-- Not applicable/available integer value: `#define IntNA -32768`. -/
def IntNA : Int := -32768

/-! ## The class -/

/-- The private members of `class DataLog24H`. -/
structure DataLog24H where
  /-- `int Data[5+11+23]`: 1M[5], 5M[11], 1H[23], all intervals concatenated. -/
  Data : List Int
  Mean1M : Int
  Mean5M : Int
  Mean1H : Int
  Mean24H : Int
  /-- Interval counter (`unsigned long`). -/
  Counter : Nat
  deriving DecidableEq, Repr

/-- Constructor: set all data to `IntNA`, reset the interval counter. -/
def DataLog24H.DataLog24H : DataLog24H :=
  { Data := List.replicate (5 + 11 + 23) IntNA
    Mean1M := IntNA, Mean5M := IntNA, Mean1H := IntNA, Mean24H := IntNA
    Counter := 0 }

def GetMean1M (s : DataLog24H) : Int := s.Mean1M
def GetMean5M (s : DataLog24H) : Int := s.Mean5M
def GetMean1H (s : DataLog24H) : Int := s.Mean1H
def GetMean24H (s : DataLog24H) : Int := s.Mean24H

/-- All data concatenated (5*1M, 11*5M, 23*1H): `return Data`. -/
def GetData (s : DataLog24H) : List Int := s.Data
/-- The data for the 1M interval (5x): `return Data`. -/
def GetData1M (s : DataLog24H) : List Int := s.Data.take 5
/-- The data for the 5M interval (11x): `return Data+5`. -/
def GetData5M (s : DataLog24H) : List Int := (s.Data.drop 5).take 11
/-- The data for the 1H interval (23x): `return Data+5+11`. -/
def GetData1H (s : DataLog24H) : List Int := (s.Data.drop (5 + 11)).take 23

/-- The shift loop of AddData,
`for (byte i=lo; i<hi; i++) {ValOld=Data[i]; Data[i]=ValNew; Mean+=ValOld; ValNew=ValOld;}`,
started at index `i` with `hi - i` iterations to go.  Returns `(Data, Mean, ValNew)`. -/
def shiftLoop (P : Platform) : Nat → Nat → List Int → Int → Int → List Int × Int × Int
  | _, 0, Data, Mean, ValNew => (Data, Mean, ValNew)
  | i, togo + 1, Data, Mean, ValNew =>
    let ValOld := Data.getD i 0
    shiftLoop P (i + 1) togo (Data.set i ValNew) (P.wrapInt (Mean + ValOld)) ValOld

/-- `void DataLog24H::AddData(int NewData1M)`: log a new data value. -/
def AddData (P : Platform) (s : DataLog24H) (NewData1M : Int) : DataLog24H :=
  let Counter := (s.Counter + 1) % 2 ^ P.ulongBits
  let Mean1M := NewData1M
  -- shift the new value into the 1-minute interval array
  let r1 := shiftLoop P 0 5 s.Data 0 Mean1M
  if Counter < 6 then
    { s with Data := r1.1, Mean1M := Mean1M, Counter := Counter }
  else
    let Mean := r1.2.1.tdiv 5
    let Mean5M := Mean
    if Counter % 5 ≠ 1 then
      { s with Data := r1.1, Mean1M := Mean1M, Mean5M := Mean5M, Counter := Counter }
    else
      -- shift the mean value into the 5-minute interval array
      let r2 := shiftLoop P 5 11 r1.1 Mean Mean
      if Counter < 5 * 12 + 1 then
        { s with Data := r2.1, Mean1M := Mean1M, Mean5M := Mean5M, Counter := Counter }
      else
        let Mean := r2.2.1.tdiv 12
        let Mean1H := Mean
        if Counter % (5 * 12) ≠ 1 then
          { s with Data := r2.1, Mean1M := Mean1M, Mean5M := Mean5M, Mean1H := Mean1H,
                   Counter := Counter }
        else
          -- shift the mean value into the 1-hour interval array
          let r3 := shiftLoop P (5 + 11) 23 r2.1 Mean Mean
          if Counter < 5 * 12 * 24 + 1 then
            { s with Data := r3.1, Mean1M := Mean1M, Mean5M := Mean5M, Mean1H := Mean1H,
                     Counter := Counter }
          else
            let Mean := r3.2.1.tdiv 24
            { Data := r3.1, Mean1M := Mean1M, Mean5M := Mean5M, Mean1H := Mean1H,
              Mean24H := Mean, Counter := Counter }

/-- AddData called once per value of `vs`, in order, starting from `s`. -/
def ingestFrom (P : Platform) (s : DataLog24H) (vs : List Int) : DataLog24H :=
  vs.foldl (AddData P) s

/-- AddData called once per value of `vs`, in order, on a freshly constructed object. -/
def ingest (P : Platform) (vs : List Int) : DataLog24H :=
  ingestFrom P DataLog24H.DataLog24H vs

/-! ## Segment level description of AddData -/

/-- The accumulator `Mean` after the `+=` of a shift loop over the slots `seg`. -/
def accum (P : Platform) (Mean : Int) (seg : List Int) : Int :=
  seg.foldl (fun m a => P.wrapInt (m + a)) Mean

/-- A segment after `v` has been shifted in at the front and the last slot evicted. -/
def shiftIn (v : Int) (seg : List Int) : List Int := (v :: seg).dropLast

/-- The counter after `Counter++`. -/
def newCounter (P : Platform) (s : DataLog24H) : Nat := (s.Counter + 1) % 2 ^ P.ulongBits

/-- The value of `Mean` after `Mean/=5`: the sum of the 1-minute slots before the call,
divided by 5. -/
def new5M (P : Platform) (s : DataLog24H) : Int := (P.wrapInt (GetData1M s).sum).tdiv 5

/-- The value of `Mean` after `Mean/=12`: the new 5-minute mean plus the 5-minute slots
before the call, divided by 12. -/
def new1H (P : Platform) (s : DataLog24H) : Int :=
  (P.wrapInt (new5M P s + (GetData5M s).sum)).tdiv 12

/-- The value of `Mean` after `Mean/=24`: the new 1-hour mean plus the 1-hour slots before
the call, divided by 24. -/
def new24H (P : Platform) (s : DataLog24H) : Int :=
  (P.wrapInt (new1H P s + (GetData1H s).sum)).tdiv 24

/-- AddData written on the three segments instead of the array indices. -/
def AddDataSeg (P : Platform) (s : DataLog24H) (x : Int) : DataLog24H :=
  let c := newCounter P s
  { Data := shiftIn x (GetData1M s)
      ++ (if 6 ≤ c ∧ c % 5 = 1 then shiftIn (new5M P s) (GetData5M s) else GetData5M s)
      ++ (if 61 ≤ c ∧ c % 60 = 1 then shiftIn (new1H P s) (GetData1H s) else GetData1H s)
    Mean1M := x
    Mean5M := if 6 ≤ c then new5M P s else s.Mean5M
    Mean1H := if 61 ≤ c ∧ c % 5 = 1 then new1H P s else s.Mean1H
    Mean24H := if 1441 ≤ c ∧ c % 60 = 1 then new24H P s else s.Mean24H
    Counter := c }

/-- No arithmetic overflow in one call of AddData on the state `s`: every sum whose quotient
the call stores in a mean is representable as an `int`.  (The sums the call computes and
throws away by an early return are not constrained.) -/
def NoOverflowStep (P : Platform) (s : DataLog24H) : Prop :=
  (6 ≤ newCounter P s → P.InRange (GetData1M s).sum) ∧
  (61 ≤ newCounter P s ∧ newCounter P s % 5 = 1 →
    P.InRange (new5M P s + (GetData5M s).sum)) ∧
  (1441 ≤ newCounter P s ∧ newCounter P s % 60 = 1 →
    P.InRange (new1H P s + (GetData1H s).sum))

instance (P : Platform) (s : DataLog24H) : Decidable (NoOverflowStep P s) := by
  unfold NoOverflowStep; infer_instance

/-- No arithmetic overflow in any of the calls that ingest `vs`, starting from `s`. -/
def NoOverflowRun (P : Platform) : DataLog24H → List Int → Prop
  | _, [] => True
  | s, x :: xs => NoOverflowStep P s ∧ NoOverflowRun P (AddData P s x) xs

instance decNoOverflowRun (P : Platform) :
    (s : DataLog24H) → (vs : List Int) → Decidable (NoOverflowRun P s vs)
  | _, [] => isTrue trivial
  | s, x :: xs =>
    @instDecidableAnd (NoOverflowStep P s) (NoOverflowRun P (AddData P s x) xs) _
      (decNoOverflowRun P (AddData P s x) xs)

/-- The first `k` slots of a segment satisfy `p`. -/
def PrefixAll (p : Int → Prop) (k : Nat) (seg : List Int) : Prop :=
  ∀ i v, i < k → seg[i]? = some v → p v

/-- A property of values that the truncated mean of a nonempty list inherits. -/
def MeanClosed (p : Int → Prop) : Prop :=
  ∀ L : List Int, L ≠ [] → (∀ v ∈ L, p v) → p (L.sum.tdiv L.length)

/-- After `n` ingestions: the slots and means that have been filled satisfy `p`. -/
def Filled (p : Int → Prop) (n : Nat) (s : DataLog24H) : Prop :=
  PrefixAll p n (GetData1M s) ∧
  PrefixAll p ((n - 1) / 5) (GetData5M s) ∧
  PrefixAll p ((n - 1) / 60) (GetData1H s) ∧
  (1 ≤ n → p s.Mean1M) ∧ (6 ≤ n → p s.Mean5M) ∧ (61 ≤ n → p s.Mean1H) ∧
  (1441 ≤ n → p s.Mean24H)

/-- The rounding rule in the words of the specification: `q` is the quotient of the sum `S`
by the divisor `d` truncated toward zero, `|q*d| ≤ |S| < |q*d| + d` and `q` has the sign of
`S` or is 0. -/
def TruncQuot (S d q : Int) : Prop :=
  |q * d| ≤ |S| ∧ |S| < |q * d| + d ∧ (q = 0 ∨ Int.sign q = Int.sign S)

instance (S d q : Int) : Decidable (TruncQuot S d q) := by
  unfold TruncQuot; infer_instance

/-- The slots of a segment from index `k` on still hold `IntNA`. -/
def Unfilled (k : Nat) (seg : List Int) : Prop :=
  ∀ i v, k ≤ i → seg[i]? = some v → v = IntNA

/-- The mean, truncated toward zero, of the `j`-th block of five consecutive samples
`v(5j-4) .. v(5j)` of the run `vs`, samples and blocks counted from 1. -/
def blockMean (vs : List Int) (j : Nat) : Int :=
  (vs.getD (5 * j - 5) 0 + vs.getD (5 * j - 4) 0 + vs.getD (5 * j - 3) 0
    + vs.getD (5 * j - 2) 0 + vs.getD (5 * j - 1) 0).tdiv 5

/-! ## Machine arithmetic and the shift loop -/

theorem wrapInt_wrapInt_add (P : Platform) (a b : Int) :
    P.wrapInt (P.wrapInt a + b) = P.wrapInt (a + b) := by
  unfold Platform.wrapInt
  have h : (a + 2 ^ (P.intBits - 1)) % 2 ^ P.intBits - 2 ^ (P.intBits - 1) + b
      + 2 ^ (P.intBits - 1) = (a + 2 ^ (P.intBits - 1)) % 2 ^ P.intBits + b := by ring
  rw [h, Int.emod_add_emod]
  congr 2
  ring

theorem two_pow_intBits (P : Platform) (h : 16 ≤ P.intBits) :
    (2 : Int) ^ P.intBits = 2 * 2 ^ (P.intBits - 1) ∧ (32768 : Int) ≤ 2 ^ (P.intBits - 1) := by
  obtain ⟨k, hk⟩ : ∃ k, P.intBits = k + 16 := ⟨P.intBits - 16, by omega⟩
  rw [hk]
  have e : k + 16 - 1 = k + 15 := by omega
  rw [e]
  have hp : (1 : Int) ≤ 2 ^ k := one_le_pow₀ (by norm_num)
  constructor
  · rw [pow_succ]; ring
  · rw [pow_add]; norm_num; linarith

theorem wrapInt_of_inRange (P : Platform) (h : 16 ≤ P.intBits) (x : Int) (hx : P.InRange x) :
    P.wrapInt x = x := by
  obtain ⟨h2, _⟩ := two_pow_intBits P h
  unfold Platform.InRange at hx
  unfold Platform.wrapInt
  rw [h2]
  generalize (2 : Int) ^ (P.intBits - 1) = H at *
  rw [Int.emod_eq_of_lt (by omega) (by omega)]
  omega

theorem accum_cons (P : Platform) (a : Int) (seg : List Int) (M : Int) :
    accum P M (a :: seg) = P.wrapInt (M + (a :: seg).sum) := by
  induction seg generalizing M a with
  | nil => simp [accum]
  | cons b seg ih =>
    have e : accum P M (a :: b :: seg) = accum P (P.wrapInt (M + a)) (b :: seg) := rfl
    rw [e, ih, wrapInt_wrapInt_add, List.sum_cons (a := a), add_assoc]

theorem shiftLoop_append (P : Platform) (seg pre post : List Int) (M V : Int) :
    (shiftLoop P pre.length seg.length (pre ++ seg ++ post) M V).1
        = pre ++ shiftIn V seg ++ post ∧
    (shiftLoop P pre.length seg.length (pre ++ seg ++ post) M V).2.1 = accum P M seg := by
  induction seg generalizing pre M V with
  | nil => simp [shiftLoop, shiftIn, accum]
  | cons a seg ih =>
    have hget : (pre ++ a :: seg ++ post).getD pre.length 0 = a := by
      rw [List.append_assoc, List.getD_eq_getElem?_getD, List.getElem?_append_right (le_refl _)]
      simp
    have hset : (pre ++ a :: seg ++ post).set pre.length V = (pre ++ [V]) ++ seg ++ post := by
      simp [List.set_append]
    have hlen : (pre ++ [V]).length = pre.length + 1 := by simp
    have step : shiftLoop P pre.length (a :: seg).length (pre ++ a :: seg ++ post) M V
        = shiftLoop P (pre ++ [V]).length seg.length ((pre ++ [V]) ++ seg ++ post)
            (P.wrapInt (M + a)) a := by
      rw [hlen, ← hset]
      simp only [List.length_cons, shiftLoop, hget]
    rw [step]
    obtain ⟨h1, h2⟩ := ih (pre ++ [V]) (P.wrapInt (M + a)) a
    refine ⟨?_, ?_⟩
    · rw [h1]; simp [shiftIn]
    · rw [h2]; rfl

theorem accum_of_length_pos (P : Platform) (seg : List Int) (M : Int) (h : 0 < seg.length) :
    accum P M seg = P.wrapInt (M + seg.sum) := by
  cases seg with
  | nil => simp at h
  | cons a seg => exact accum_cons P a seg M

theorem shiftIn_length (v : Int) (seg : List Int) : (shiftIn v seg).length = seg.length := by
  simp [shiftIn]

theorem data_split (s : DataLog24H) (h : s.Data.length = 39) :
    s.Data = GetData1M s ++ GetData5M s ++ GetData1H s ∧
    (GetData1M s).length = 5 ∧ (GetData5M s).length = 11 ∧ (GetData1H s).length = 23 := by
  unfold GetData1M GetData5M GetData1H
  refine ⟨?_, ?_, ?_, ?_⟩
  · have e : List.take 23 (List.drop (5 + 11) s.Data) = List.drop (5 + 11) s.Data := by
      apply List.take_of_length_le; simp [h]
    rw [e, List.append_assoc, ← List.drop_drop, List.take_append_drop, List.take_append_drop]
  · simp [h]
  · simp [h]
  · simp [h]

theorem getData_of_split (A B C : List Int) (m1 m5 m1h m24 : Int) (c : Nat)
    (hA : A.length = 5) (hB : B.length = 11) (hC : C.length = 23) :
    GetData1M ⟨A ++ B ++ C, m1, m5, m1h, m24, c⟩ = A ∧
    GetData5M ⟨A ++ B ++ C, m1, m5, m1h, m24, c⟩ = B ∧
    GetData1H ⟨A ++ B ++ C, m1, m5, m1h, m24, c⟩ = C := by
  unfold GetData1M GetData5M GetData1H
  simp only [List.append_assoc]
  refine ⟨List.take_left' hA, ?_, ?_⟩
  · rw [List.drop_left' hA]
    exact List.take_left' hB
  · have hAB : (A ++ B).length = 5 + 11 := by simp [hA, hB]
    rw [← List.append_assoc, List.drop_left' hAB]
    exact List.take_of_length_le (by omega)

theorem AddData_eq_of_split (P : Platform) (A B C : List Int) (m1 m5 m1h m24 : Int) (c : Nat)
    (x : Int) (hA : A.length = 5) (hB : B.length = 11) (hC : C.length = 23) :
    AddData P ⟨A ++ B ++ C, m1, m5, m1h, m24, c⟩ x
      = AddDataSeg P ⟨A ++ B ++ C, m1, m5, m1h, m24, c⟩ x := by
  obtain ⟨g1, g2, g3⟩ := getData_of_split A B C m1 m5 m1h m24 c hA hB hC
  have l1 := shiftLoop_append P A [] (B ++ C)
  have l2 := fun V => shiftLoop_append P B (shiftIn V A) C
  have l3 := fun V W => shiftLoop_append P C (shiftIn V A ++ shiftIn W B) []
  simp only [List.length_nil, List.nil_append, hA, hB, hC, shiftIn_length, List.append_nil,
    List.length_append, ← List.append_assoc] at l1 l2 l3
  have a1 := fun M => accum_of_length_pos P A M (by omega)
  have a2 := fun M => accum_of_length_pos P B M (by omega)
  have a3 := fun M => accum_of_length_pos P C M (by omega)
  unfold AddData AddDataSeg
  simp only [g1, g2, g3, newCounter, new5M, new1H, new24H]
  simp only [(l1 _ _).1, (l1 _ _).2, (l2 _ _ _).1, (l2 _ _ _).2, (l3 _ _ _ _).1,
    (l3 _ _ _ _).2, a1, a2, a3, zero_add]
  split_ifs <;> first | rfl | omega

/-- On a 39 element array AddData is its segment level description. -/
theorem AddData_eq (P : Platform) (s : DataLog24H) (x : Int) (h : s.Data.length = 39) :
    AddData P s x = AddDataSeg P s x := by
  obtain ⟨hD, hA, hB, hC⟩ := data_split s h
  obtain ⟨D, m1, m5, m1h, m24, c⟩ := s
  simp only at hD
  have := AddData_eq_of_split P _ _ _ m1 m5 m1h m24 c x hA hB hC
  rw [← hD] at this
  exact this

/-! ## One call of AddData, field by field -/

theorem AddData_Counter (P : Platform) (s : DataLog24H) (x : Int) :
    (AddData P s x).Counter = newCounter P s := by
  unfold AddData newCounter
  simp only
  split_ifs <;> rfl

theorem AddData_Mean1M (P : Platform) (s : DataLog24H) (x : Int) :
    (AddData P s x).Mean1M = x := by
  unfold AddData
  simp only
  split_ifs <;> rfl

theorem AddData_segments (P : Platform) (s : DataLog24H) (x : Int) (h : s.Data.length = 39) :
    GetData1M (AddData P s x) = shiftIn x (GetData1M s) ∧
    GetData5M (AddData P s x)
      = (if 6 ≤ newCounter P s ∧ newCounter P s % 5 = 1
          then shiftIn (new5M P s) (GetData5M s) else GetData5M s) ∧
    GetData1H (AddData P s x)
      = (if 61 ≤ newCounter P s ∧ newCounter P s % 60 = 1
          then shiftIn (new1H P s) (GetData1H s) else GetData1H s) := by
  obtain ⟨_, hA, hB, hC⟩ := data_split s h
  rw [AddData_eq P s x h]
  unfold AddDataSeg
  apply getData_of_split
  · rw [shiftIn_length, hA]
  · split_ifs
    · rw [shiftIn_length, hB]
    · exact hB
  · split_ifs
    · rw [shiftIn_length, hC]
    · exact hC

theorem AddData_length (P : Platform) (s : DataLog24H) (x : Int) (h : s.Data.length = 39) :
    (AddData P s x).Data.length = 39 := by
  obtain ⟨_, hA, hB, hC⟩ := data_split s h
  rw [AddData_eq P s x h]
  unfold AddDataSeg
  simp only [List.length_append, shiftIn_length, hA]
  split_ifs <;> simp [shiftIn_length, hB, hC]

theorem AddData_means (P : Platform) (s : DataLog24H) (x : Int) (h : s.Data.length = 39) :
    (AddData P s x).Mean5M = (if 6 ≤ newCounter P s then new5M P s else s.Mean5M) ∧
    (AddData P s x).Mean1H
      = (if 61 ≤ newCounter P s ∧ newCounter P s % 5 = 1 then new1H P s else s.Mean1H) ∧
    (AddData P s x).Mean24H
      = (if 1441 ≤ newCounter P s ∧ newCounter P s % 60 = 1 then new24H P s
          else s.Mean24H) := by
  rw [AddData_eq P s x h]
  exact ⟨rfl, rfl, rfl⟩

/-! ## Runs of AddData from the constructor -/

theorem ingest_snoc (P : Platform) (vs : List Int) (x : Int) :
    ingest P (vs ++ [x]) = AddData P (ingest P vs) x := by
  simp [ingest, ingestFrom, List.foldl_append]

theorem ingest_length (P : Platform) (vs : List Int) : (ingest P vs).Data.length = 39 := by
  induction vs using List.reverseRecOn with
  | nil => rfl
  | append_singleton vs x ih => rw [ingest_snoc]; exact AddData_length P _ x ih

theorem ingest_Counter (P : Platform) (vs : List Int) :
    (ingest P vs).Counter = vs.length % 2 ^ P.ulongBits := by
  induction vs using List.reverseRecOn with
  | nil => simp [ingest, ingestFrom, DataLog24H.DataLog24H]
  | append_singleton vs x ih =>
    rw [ingest_snoc, AddData_Counter, newCounter, ih]
    simp [Nat.add_mod]

theorem take_cons_take (x : Int) (L : List Int) (k : Nat) (h : k + 1 ≤ L.length) :
    shiftIn x (L.take (k + 1)) = (x :: L).take (k + 1) := by
  unfold shiftIn
  rw [List.dropLast_eq_take]
  simp only [List.length_cons, List.length_take, Nat.add_sub_cancel, List.take_succ_cons]
  rw [min_eq_left h, List.take_succ_cons, List.take_take, min_eq_left (Nat.le_succ k)]

theorem ingest_GetData1M (P : Platform) (vs : List Int) :
    GetData1M (ingest P vs) = (vs.reverse ++ List.replicate 5 IntNA).take 5 := by
  induction vs using List.reverseRecOn with
  | nil => rfl
  | append_singleton vs x ih =>
    rw [ingest_snoc, (AddData_segments P _ x (ingest_length P vs)).1, ih,
      take_cons_take x _ 4 (by simp)]
    simp

theorem newCounter_ingest (P : Platform) (vs : List Int) :
    newCounter P (ingest P vs) = (vs.length + 1) % 2 ^ P.ulongBits := by
  rw [newCounter, ingest_Counter]
  simp [Nat.add_mod]

theorem newCounter_ingest_le (P : Platform) (vs : List Int) :
    newCounter P (ingest P vs) ≤ vs.length + 1 := by
  rw [newCounter_ingest]
  exact Nat.mod_le _ _

theorem two_pow_ulongBits (P : Platform) (h : 32 ≤ P.ulongBits) :
    4294967296 ≤ 2 ^ P.ulongBits := by
  have : 2 ^ 32 ≤ 2 ^ P.ulongBits := Nat.pow_le_pow_right (by norm_num) h
  simpa using this

theorem newCounter_ingest_of_lt (P : Platform) (vs : List Int)
    (h : vs.length + 1 < 2 ^ P.ulongBits) : newCounter P (ingest P vs) = vs.length + 1 := by
  rw [newCounter_ingest, Nat.mod_eq_of_lt h]

theorem shiftIn_replicate (v a : Int) (k : Nat) :
    shiftIn v (List.replicate (k + 1) a) = v :: List.replicate k a := by
  unfold shiftIn
  rw [List.dropLast_eq_take]
  simp [List.take_replicate]

/-- Before the thresholds nothing has reached the coarser segments and means, whatever the
ingested values are. -/
theorem ingest_early (P : Platform) (vs : List Int) :
    (vs.length < 6 →
      GetData5M (ingest P vs) = List.replicate 11 IntNA ∧ (ingest P vs).Mean5M = IntNA) ∧
    (vs.length < 61 →
      GetData1H (ingest P vs) = List.replicate 23 IntNA ∧ (ingest P vs).Mean1H = IntNA) ∧
    (vs.length < 1441 → (ingest P vs).Mean24H = IntNA) := by
  induction vs using List.reverseRecOn with
  | nil => exact ⟨fun _ => ⟨rfl, rfl⟩, fun _ => ⟨rfl, rfl⟩, fun _ => rfl⟩
  | append_singleton vs x ih =>
    have hc := newCounter_ingest_le P vs
    obtain ⟨_, s5, s60⟩ := AddData_segments P _ x (ingest_length P vs)
    obtain ⟨m5, m1h, m24⟩ := AddData_means P _ x (ingest_length P vs)
    simp only [List.length_append, List.length_singleton]
    rw [ingest_snoc]
    refine ⟨fun h => ?_, fun h => ?_, fun h => ?_⟩
    · rw [s5, m5, if_neg (by omega), if_neg (by omega)]
      exact ih.1 (by omega)
    · rw [s60, m1h, if_neg (by omega), if_neg (by omega)]
      exact ih.2.1 (by omega)
    · rw [m24, if_neg (by omega)]
      exact ih.2.2 (by omega)

theorem seventh_not_cadence (M : Nat) :
    ¬ (6 ≤ (6 % M + 1) % M ∧ (6 % M + 1) % M % 5 = 1) := by
  rcases Nat.lt_or_ge 7 M with h | h
  · have h6 : 6 % M = 6 := Nat.mod_eq_of_lt (by omega)
    rw [h6, Nat.mod_eq_of_lt h]
    omega
  · interval_cases M <;> decide

/-! ## Truncated means -/

theorem tdiv_ge (S lo d : Int) (hd : 0 < d) (h : d * lo ≤ S) : lo ≤ S.tdiv d := by
  rcases le_or_lt 0 S with hS | hS
  · rw [Int.tdiv_eq_ediv hS hd.le]
    exact Int.le_ediv_of_mul_le hd (by linarith)
  · have e : S.tdiv d = -((-S) / d) := by
      rw [← Int.tdiv_eq_ediv (by omega) hd.le, Int.neg_tdiv, neg_neg]
    rw [e]
    have : (-S) / d ≤ -lo := Int.ediv_le_of_le_mul hd (by linarith)
    omega

theorem tdiv_le (S hi d : Int) (hd : 0 < d) (h : S ≤ d * hi) : S.tdiv d ≤ hi := by
  rcases le_or_lt 0 S with hS | hS
  · rw [Int.tdiv_eq_ediv hS hd.le]
    exact Int.ediv_le_of_le_mul hd (by linarith)
  · have e : S.tdiv d = -((-S) / d) := by
      rw [← Int.tdiv_eq_ediv (by omega) hd.le, Int.neg_tdiv, neg_neg]
    rw [e]
    have : -hi ≤ (-S) / d := Int.le_ediv_of_mul_le hd (by linarith)
    omega

theorem length_pos_cast (L : List Int) (h : L ≠ []) : (0 : Int) < (L.length : Int) := by
  have := List.length_pos.mpr h
  exact_mod_cast this

theorem meanClosed_ge (lo : Int) : MeanClosed (fun v => lo ≤ v) := by
  intro L hL h
  apply tdiv_ge _ _ _ (length_pos_cast L hL)
  have := List.card_nsmul_le_sum L lo h
  simpa using this

theorem meanClosed_le (hi : Int) : MeanClosed (fun v => v ≤ hi) := by
  intro L hL h
  apply tdiv_le _ _ _ (length_pos_cast L hL)
  have := List.sum_le_card_nsmul L hi h
  simpa using this

theorem meanClosed_and (p q : Int → Prop) (hp : MeanClosed p) (hq : MeanClosed q) :
    MeanClosed (fun v => p v ∧ q v) :=
  fun L hL h => ⟨hp L hL fun v hv => (h v hv).1, hq L hL fun v hv => (h v hv).2⟩

theorem meanClosed_gt_IntNA : MeanClosed (fun v => IntNA < v) := by
  intro L hL h
  exact meanClosed_ge (IntNA + 1) L hL h

theorem meanClosed_eq (c : Int) : MeanClosed (fun v => v = c) := by
  intro L hL h
  exact le_antisymm (meanClosed_le c L hL fun v hv => (h v hv).le)
    (meanClosed_ge c L hL fun v hv => (h v hv).ge)

/-! ## Filled prefixes of the segments -/

theorem PrefixAll_shiftIn (p : Int → Prop) (v : Int) (seg : List Int) (k : Nat) (hv : p v)
    (h : PrefixAll p k seg) : PrefixAll p (k + 1) (shiftIn v seg) := by
  intro i w hi hget
  unfold shiftIn at hget
  rw [List.dropLast_eq_take, List.getElem?_take] at hget
  split_ifs at hget
  cases i with
  | zero => simp at hget; rw [← hget]; exact hv
  | succ j =>
    rw [List.getElem?_cons_succ] at hget
    exact h j w (by omega) hget

theorem PrefixAll_of (p : Int → Prop) (seg : List Int) (k k' : Nat) (h : PrefixAll p k seg)
    (hk : k' ≤ k ∨ seg.length ≤ k) : PrefixAll p k' seg := by
  intro i w hi hget
  have hlt : i < seg.length := by
    by_contra hn
    rw [List.getElem?_eq_none (by omega)] at hget
    exact Option.noConfusion hget
  exact h i w (by omega) hget

theorem PrefixAll_all (p : Int → Prop) (seg : List Int) (k : Nat) (h : PrefixAll p k seg)
    (hk : seg.length ≤ k) : ∀ v ∈ seg, p v := by
  intro v hv
  obtain ⟨i, hi⟩ := List.getElem?_of_mem hv
  have hlt : i < seg.length := by
    by_contra hn
    rw [List.getElem?_eq_none (by omega)] at hi
    exact Option.noConfusion hi
  exact h i v (by omega) hi

theorem NoOverflowRun_snoc (P : Platform) (s : DataLog24H) (vs : List Int) (x : Int) :
    NoOverflowRun P s (vs ++ [x])
      ↔ NoOverflowRun P s vs ∧ NoOverflowStep P (ingestFrom P s vs) := by
  induction vs generalizing s with
  | nil => simp [NoOverflowRun, ingestFrom]
  | cons a vs ih =>
    have e : NoOverflowRun P s (a :: vs ++ [x])
        ↔ NoOverflowStep P s ∧ NoOverflowRun P (AddData P s a) (vs ++ [x]) := Iff.rfl
    have e2 : NoOverflowRun P s (a :: vs)
        ↔ NoOverflowStep P s ∧ NoOverflowRun P (AddData P s a) vs := Iff.rfl
    have e3 : ingestFrom P s (a :: vs) = ingestFrom P (AddData P s a) vs := rfl
    rw [e, e2, e3, ih]
    tauto

/-! ## The filled slots and means along a run -/

theorem new_means_of_filled (P : Platform) (hP : P.Conforming) (p : Int → Prop)
    (hp : MeanClosed p) (vs : List Int) (hF : Filled p vs.length (ingest P vs))
    (hno : NoOverflowStep P (ingest P vs)) :
    (6 ≤ newCounter P (ingest P vs) → p (new5M P (ingest P vs))) ∧
    (61 ≤ newCounter P (ingest P vs) ∧ newCounter P (ingest P vs) % 5 = 1 →
      p (new1H P (ingest P vs))) ∧
    (1441 ≤ newCounter P (ingest P vs) ∧ newCounter P (ingest P vs) % 60 = 1 →
      p (new24H P (ingest P vs))) := by
  obtain ⟨_, hA, hB, hC⟩ := data_split _ (ingest_length P vs)
  have hc := newCounter_ingest_le P vs
  obtain ⟨fA, fB, fC, _⟩ := hF
  obtain ⟨n5, n12, n24⟩ := hno
  generalize newCounter P (ingest P vs) = c at *
  have m5 : 6 ≤ c → p (new5M P (ingest P vs)) := by
    intro h6
    have hall := PrefixAll_all p _ _ fA (by omega)
    have := hp (GetData1M (ingest P vs)) (by intro e; rw [e] at hA; simp at hA) hall
    rw [hA] at this
    unfold new5M
    rw [wrapInt_of_inRange P hP.1 _ (n5 h6)]
    exact this
  have m1h : 61 ≤ c ∧ c % 5 = 1 → p (new1H P (ingest P vs)) := by
    intro h61
    have hall := PrefixAll_all p _ _ fB (by omega)
    have := hp (new5M P (ingest P vs) :: GetData5M (ingest P vs)) (by simp)
      (by
        intro v hv
        rcases List.mem_cons.mp hv with e | e
        · rw [e]; exact m5 (by omega)
        · exact hall v e)
    rw [List.length_cons, hB, List.sum_cons] at this
    unfold new1H
    rw [wrapInt_of_inRange P hP.1 _ (n12 h61)]
    exact this
  refine ⟨m5, m1h, fun h1441 => ?_⟩
  have hall := PrefixAll_all p _ _ fC (by omega)
  have := hp (new1H P (ingest P vs) :: GetData1H (ingest P vs)) (by simp)
    (by
      intro v hv
      rcases List.mem_cons.mp hv with e | e
      · rw [e]; exact m1h ⟨by omega, by omega⟩
      · exact hall v e)
  rw [List.length_cons, hC, List.sum_cons] at this
  unfold new24H
  rw [wrapInt_of_inRange P hP.1 _ (n24 h1441)]
  exact this

theorem Filled_step (P : Platform) (hP : P.Conforming) (p : Int → Prop) (hp : MeanClosed p)
    (vs : List Int) (x : Int) (hx : p x) (hF : Filled p vs.length (ingest P vs))
    (hno : NoOverflowStep P (ingest P vs)) :
    Filled p (vs.length + 1) (ingest P (vs ++ [x])) := by
  obtain ⟨m5, m1h, m24⟩ := new_means_of_filled P hP p hp vs hF hno
  obtain ⟨_, hA, hB, hC⟩ := data_split _ (ingest_length P vs)
  obtain ⟨s1, s5, s60⟩ := AddData_segments P _ x (ingest_length P vs)
  obtain ⟨e5, e1h, e24⟩ := AddData_means P _ x (ingest_length P vs)
  have hM := two_pow_ulongBits P hP.2
  have hc := newCounter_ingest_le P vs
  have hc' : vs.length + 1 < 2 ^ P.ulongBits → newCounter P (ingest P vs) = vs.length + 1 :=
    newCounter_ingest_of_lt P vs
  obtain ⟨fA, fB, fC, f1, f5, f1h, f24⟩ := hF
  rw [ingest_snoc]
  generalize newCounter P (ingest P vs) = c at *
  generalize 2 ^ P.ulongBits = M at *
  refine ⟨?_, ?_, ?_, fun _ => ?_, fun h => ?_, fun h => ?_, fun h => ?_⟩
  · rw [s1]; exact PrefixAll_shiftIn p x _ _ hx fA
  · rw [s5]
    split_ifs with hcond
    · exact PrefixAll_of p _ _ _ (PrefixAll_shiftIn p _ _ _ (m5 hcond.1) fB)
        (Or.inl (by omega))
    · exact PrefixAll_of p _ _ _ fB (by rw [hB]; omega)
  · rw [s60]
    split_ifs with hcond
    · exact PrefixAll_of p _ _ _
        (PrefixAll_shiftIn p _ _ _ (m1h ⟨hcond.1, by omega⟩) fC) (Or.inl (by omega))
    · exact PrefixAll_of p _ _ _ fC (by rw [hC]; omega)
  · rw [AddData_Mean1M]; exact hx
  · rw [e5]
    split_ifs with hcond
    · exact m5 hcond
    · exact f5 (by omega)
  · rw [e1h]
    split_ifs with hcond
    · exact m1h hcond
    · exact f1h (by omega)
  · rw [e24]
    split_ifs with hcond
    · exact m24 hcond
    · exact f24 (by omega)

theorem Filled_init (p : Int → Prop) : Filled p 0 DataLog24H.DataLog24H := by
  refine ⟨?_, ?_, ?_, ?_, ?_, ?_, ?_⟩ <;> first
    | (intro i v hi; exact absurd hi (by simp))
    | (intro h; exact absurd h (by simp))

theorem Filled_ingest (P : Platform) (hP : P.Conforming) (p : Int → Prop) (hp : MeanClosed p)
    (vs : List Int) (hv : ∀ v ∈ vs, p v) (hno : NoOverflowRun P DataLog24H.DataLog24H vs) :
    Filled p vs.length (ingest P vs) := by
  induction vs using List.reverseRecOn with
  | nil => exact Filled_init p
  | append_singleton vs x ih =>
    rw [NoOverflowRun_snoc] at hno
    rw [List.length_append, List.length_singleton]
    exact Filled_step P hP p hp vs x (hv x (by simp))
      (ih (fun v h => hv v (by simp [h])) hno.1) hno.2

/-! ## Runs of one constant value -/

theorem sum_of_all_eq (c : Int) (L : List Int) (h : ∀ v ∈ L, v = c) : L.sum = L.length * c := by
  have e : L = List.replicate L.length c := List.eq_replicate_iff.mpr ⟨rfl, h⟩
  rw [e, List.sum_replicate]
  simp

theorem inRange_multiples (P : Platform) (c : Int) (hc : P.InRange (24 * c)) :
    P.InRange (5 * c) ∧ P.InRange (12 * c) := by
  unfold Platform.InRange at *
  generalize (2 : Int) ^ (P.intBits - 1) = H at *
  omega

theorem const_noOverflowStep (P : Platform) (hP : P.Conforming) (c : Int)
    (hc : P.InRange (24 * c)) (vs : List Int)
    (hF : Filled (fun v => v = c) vs.length (ingest P vs)) :
    NoOverflowStep P (ingest P vs) := by
  obtain ⟨_, hA, hB, hC⟩ := data_split _ (ingest_length P vs)
  obtain ⟨h5, h12⟩ := inRange_multiples P c hc
  have hle := newCounter_ingest_le P vs
  obtain ⟨fA, fB, fC, _⟩ := hF
  have sA : 6 ≤ newCounter P (ingest P vs) → (GetData1M (ingest P vs)).sum = 5 * c := by
    intro h
    rw [sum_of_all_eq c _ (PrefixAll_all _ _ _ fA (by omega)), hA]; rfl
  have sB : 61 ≤ newCounter P (ingest P vs) → (GetData5M (ingest P vs)).sum = 11 * c := by
    intro h
    rw [sum_of_all_eq c _ (PrefixAll_all _ _ _ fB (by omega)), hB]; rfl
  have sC : 1441 ≤ newCounter P (ingest P vs) → (GetData1H (ingest P vs)).sum = 23 * c := by
    intro h
    rw [sum_of_all_eq c _ (PrefixAll_all _ _ _ fC (by omega)), hC]; rfl
  have e5 : 6 ≤ newCounter P (ingest P vs) → new5M P (ingest P vs) = c := by
    intro h
    rw [new5M, sA h, wrapInt_of_inRange P hP.1 _ h5]
    exact Int.mul_tdiv_cancel_left c (by norm_num)
  have e12 : 61 ≤ newCounter P (ingest P vs) → new1H P (ingest P vs) = c := by
    intro h
    have e : c + 11 * c = 12 * c := by ring
    rw [new1H, e5 (by omega), sB h, e, wrapInt_of_inRange P hP.1 _ h12]
    exact Int.mul_tdiv_cancel_left c (by norm_num)
  refine ⟨fun h => ?_, fun h => ?_, fun h => ?_⟩
  · rw [sA h]; exact h5
  · have e : c + 11 * c = 12 * c := by ring
    rw [e5 (by omega), sB h.1, e]; exact h12
  · have e : c + 23 * c = 24 * c := by ring
    rw [e12 (by omega), sC h.1, e]; exact hc

/-- Ingesting one value `c` with `24 * c` representable never overflows; the filled slots
and means all hold `c`. -/
theorem const_run (P : Platform) (hP : P.Conforming) (c : Int) (hc : P.InRange (24 * c))
    (n : Nat) :
    Filled (fun v => v = c) n (ingest P (List.replicate n c)) ∧
    NoOverflowRun P DataLog24H.DataLog24H (List.replicate n c) := by
  induction n with
  | zero => exact ⟨Filled_init _, trivial⟩
  | succ n ih =>
    have hlen : (List.replicate n c).length = n := List.length_replicate n c
    have hF : Filled (fun v => v = c) (List.replicate n c).length
        (ingest P (List.replicate n c)) := by rw [hlen]; exact ih.1
    have hno := const_noOverflowStep P hP c hc _ hF
    rw [List.replicate_succ']
    refine ⟨?_, (NoOverflowRun_snoc P _ _ c).mpr ⟨ih.2, hno⟩⟩
    have := Filled_step P hP _ (meanClosed_eq c) _ c rfl hF hno
    rw [hlen] at this
    exact this

theorem gt_IntNA_of_filled (P : Platform) (hP : P.Conforming) (vs : List Int)
    (hv : ∀ v ∈ vs, IntNA < v) (hno : NoOverflowRun P DataLog24H.DataLog24H vs) :
    (6 ≤ vs.length → IntNA < (ingest P vs).Mean5M) ∧
    (61 ≤ vs.length → IntNA < (ingest P vs).Mean1H) ∧
    (1441 ≤ vs.length → IntNA < (ingest P vs).Mean24H) := by
  obtain ⟨_, _, _, _, f5, f1h, f24⟩ :=
    Filled_ingest P hP _ meanClosed_gt_IntNA vs hv hno
  exact ⟨f5, f1h, f24⟩

/-! ## The claims -/

/-- C1, as the code has it: after n ≥ 6 ingestions (counter not wrapped, the sum of the five
values representable) GetMean5M is the average, truncated toward zero, of the five values
that the 1-minute segment held before the last call, that is of the five values ingested
before the last one; the value just ingested is not part of it. -/
theorem C1_mean5M_of_previous_five (P : Platform) (hP : P.Conforming) (vs : List Int)
    (x : Int) (h5 : 5 ≤ vs.length) (hn : vs.length + 1 < 2 ^ P.ulongBits)
    (hsum : P.InRange (vs.reverse.take 5).sum) :
    GetData1M (ingest P vs) = vs.reverse.take 5 ∧
    GetMean5M (ingest P (vs ++ [x])) = (vs.reverse.take 5).sum.tdiv 5 := by
  have hA : GetData1M (ingest P vs) = vs.reverse.take 5 := by
    rw [ingest_GetData1M, List.take_append_of_le_length (by simpa using h5)]
  refine ⟨hA, ?_⟩
  unfold GetMean5M
  rw [ingest_snoc, (AddData_means P _ x (ingest_length P vs)).1,
    newCounter_ingest_of_lt P vs hn, if_pos (by omega), new5M, hA,
    wrapInt_of_inRange P hP.1 _ hsum]

/-- C1 at 1,2,3,4,5,6: the 5-minute mean is (1+2+3+4+5)/5 = 3. -/
theorem C1_mean5M_of_previous_five_witness :
    GetMean5M (ingest zuno [1, 2, 3, 4, 5, 6]) = 3 :=
  (C1_mean5M_of_previous_five zuno (by decide) [1, 2, 3, 4, 5] 6 (by decide) (by decide)
    (by decide)).2

/-- C1 as stated fails: after ingesting 1,2,3,4,5,6 GetMean5M is 3, which is neither
(2+3+4+5+6)/5 = 4 nor the average of the five values then in the 1-minute segment. -/
theorem C1_counterexample :
    GetMean5M (ingest zuno [1, 2, 3, 4, 5, 6]) = 3 ∧
    GetMean5M (ingest zuno [1, 2, 3, 4, 5, 6]) ≠ Int.tdiv (2 + 3 + 4 + 5 + 6) 5 ∧
    GetData1M (ingest zuno [1, 2, 3, 4, 5, 6]) = [6, 5, 4, 3, 2] ∧
    GetMean5M (ingest zuno [1, 2, 3, 4, 5, 6])
      ≠ (GetData1M (ingest zuno [1, 2, 3, 4, 5, 6])).sum.tdiv 5 := by
  decide

/-- C2: after ingesting v1..vn the 1-minute segment holds the most recent values
newest-first, slot i = v(n-i) for i < min(n,5), and the slots n ≤ i < 5 still hold IntNA;
after v1..v6 it reads [v6,v5,v4,v3,v2]. -/
theorem C2_segment_1M_newest_first (P : Platform) (vs : List Int) :
    GetData1M (ingest P vs) = (vs.reverse ++ List.replicate 5 IntNA).take 5 ∧
    (∀ i, i < min vs.length 5 → (GetData1M (ingest P vs))[i]? = vs[vs.length - 1 - i]?) ∧
    (∀ i, vs.length ≤ i → i < 5 → (GetData1M (ingest P vs))[i]? = some IntNA) ∧
    (∀ v1 v2 v3 v4 v5 v6 : Int,
      GetData1M (ingest P [v1, v2, v3, v4, v5, v6]) = [v6, v5, v4, v3, v2]) := by
  refine ⟨ingest_GetData1M P vs, fun i hi => ?_, fun i h1 h2 => ?_, fun v1 v2 v3 v4 v5 v6 => ?_⟩
  · rw [ingest_GetData1M, List.getElem?_take_of_lt (by omega),
      List.getElem?_append_left (by simp; omega), List.getElem?_reverse (by omega)]
  · rw [ingest_GetData1M, List.getElem?_take_of_lt h2,
      List.getElem?_append_right (by simpa using h1)]
    rw [List.getElem?_replicate, if_pos (by simp; omega)]
  · rw [ingest_GetData1M]; rfl

/-- C2 after ingesting 7,8,9: slot 0 holds the value ingested last, slot 3 still IntNA. -/
theorem C2_segment_1M_newest_first_witness :
    (GetData1M (ingest zuno [7, 8, 9]))[0]? = some 9 ∧
    (GetData1M (ingest zuno [7, 8, 9]))[3]? = some IntNA :=
  ⟨(C2_segment_1M_newest_first zuno [7, 8, 9]).2.1 0 (by decide),
   (C2_segment_1M_newest_first zuno [7, 8, 9]).2.2.1 3 (by decide) (by decide)⟩

/-- C3: cadence gating.  If AddData brings the counter to n, the 5-minute segment is
unchanged unless n ≥ 6 and n mod 5 = 1, and the 1-hour segment is unchanged unless n ≥ 61
and n mod 60 = 1; a 7th ingestion leaves the 5-minute segment as it was after the 6th. -/
theorem C3_cadence_gating (P : Platform) :
    (∀ (s : DataLog24H) (x : Int), s.Data.length = 39 →
      (¬ (6 ≤ (AddData P s x).Counter ∧ (AddData P s x).Counter % 5 = 1) →
        GetData5M (AddData P s x) = GetData5M s) ∧
      (¬ (61 ≤ (AddData P s x).Counter ∧ (AddData P s x).Counter % 60 = 1) →
        GetData1H (AddData P s x) = GetData1H s)) ∧
    (∀ (vs : List Int) (x : Int), vs.length = 6 →
      GetData5M (ingest P (vs ++ [x])) = GetData5M (ingest P vs)) := by
  refine ⟨fun s x hs => ?_, fun vs x hvs => ?_⟩
  · obtain ⟨_, s5, s60⟩ := AddData_segments P s x hs
    rw [AddData_Counter]
    exact ⟨fun h => by rw [s5, if_neg h], fun h => by rw [s60, if_neg h]⟩
  · rw [ingest_snoc, (AddData_segments P _ x (ingest_length P vs)).2.1, if_neg]
    rw [newCounter, ingest_Counter, hvs]
    exact seventh_not_cadence _

/-- C3 on the freshly constructed object and on the 7th ingestion of 1..7. -/
theorem C3_cadence_gating_witness :
    GetData5M (AddData zuno DataLog24H.DataLog24H 7) = GetData5M DataLog24H.DataLog24H ∧
    GetData1H (AddData zuno DataLog24H.DataLog24H 7) = GetData1H DataLog24H.DataLog24H ∧
    GetData5M (ingest zuno ([1, 2, 3, 4, 5, 6] ++ [7]))
      = GetData5M (ingest zuno [1, 2, 3, 4, 5, 6]) :=
  ⟨((C3_cadence_gating zuno).1 DataLog24H.DataLog24H 7 (by decide)).1 (by decide),
   ((C3_cadence_gating zuno).1 DataLog24H.DataLog24H 7 (by decide)).2 (by decide),
   (C3_cadence_gating zuno).2 [1, 2, 3, 4, 5, 6] 7 (by decide)⟩

/-- C4, as the code has it: the 6th ingestion is a cadence boundary (6 mod 5 = 1), so after
exactly 6 ingestions the 5-minute segment has been shifted once: slot 0 holds the 5-minute
mean and the other 10 slots still hold IntNA.  Up to 5 ingestions all 11 slots hold IntNA. -/
theorem C4_segment_5M_after_six (P : Platform) (hP : P.Conforming) (vs : List Int) :
    (vs.length ≤ 5 → GetData5M (ingest P vs) = List.replicate 11 IntNA) ∧
    (vs.length = 6 →
      GetData5M (ingest P vs) = GetMean5M (ingest P vs) :: List.replicate 10 IntNA) := by
  refine ⟨fun h => ((ingest_early P vs).1 (by omega)).1, fun h => ?_⟩
  induction vs using List.reverseRecOn with
  | nil => simp at h
  | append_singleton vs x _ =>
    simp only [List.length_append, List.length_singleton] at h
    have hM := two_pow_ulongBits P hP.2
    have hc := newCounter_ingest_of_lt P vs (by omega)
    unfold GetMean5M
    rw [ingest_snoc, (AddData_segments P _ x (ingest_length P vs)).2.1,
      (AddData_means P _ x (ingest_length P vs)).1, hc, if_pos (by omega), if_pos (by omega),
      ((ingest_early P vs).1 (by omega)).1]
    exact shiftIn_replicate _ _ 10

/-- C4 after 1,2,3,4,5 and after 1,2,3,4,5,6. -/
theorem C4_segment_5M_after_six_witness :
    GetData5M (ingest zuno [1, 2, 3, 4, 5]) = List.replicate 11 IntNA ∧
    GetData5M (ingest zuno [1, 2, 3, 4, 5, 6])
      = GetMean5M (ingest zuno [1, 2, 3, 4, 5, 6]) :: List.replicate 10 IntNA :=
  ⟨(C4_segment_5M_after_six zuno (by decide) [1, 2, 3, 4, 5]).1 (by decide),
   (C4_segment_5M_after_six zuno (by decide) [1, 2, 3, 4, 5, 6]).2 (by decide)⟩

/-- C4 as stated fails: after ingesting 1,2,3,4,5,6 slot 0 of the 5-minute segment is 3,
the segment is not all IntNA. -/
theorem C4_counterexample :
    GetData5M (ingest zuno [1, 2, 3, 4, 5, 6]) = 3 :: List.replicate 10 IntNA ∧
    GetData5M (ingest zuno [1, 2, 3, 4, 5, 6]) ≠ List.replicate 11 IntNA := by
  decide

/-- C5: after AddData(x) GetMean1M returns x, from every state and on every return path;
hence after n ≥ 1 ingestions it is the value ingested last. -/
theorem C5_mean1M_is_last_value (P : Platform) :
    (∀ (s : DataLog24H) (x : Int), GetMean1M (AddData P s x) = x) ∧
    (∀ (vs : List Int) (x : Int), GetMean1M (ingest P (vs ++ [x])) = x) := by
  refine ⟨fun s x => AddData_Mean1M P s x, fun vs x => ?_⟩
  rw [ingest_snoc]
  exact AddData_Mean1M P _ x

/-- C6: the 5-minute mean is IntNA while fewer than 6 values have been ingested, whatever
the values; with every value greater than IntNA and no arithmetic overflow it is not IntNA
once 6 or more values have been ingested. -/
theorem C6_mean5M_threshold (P : Platform) (vs : List Int) :
    (vs.length < 6 → GetMean5M (ingest P vs) = IntNA) ∧
    (P.Conforming → (∀ v ∈ vs, IntNA < v) → NoOverflowRun P DataLog24H.DataLog24H vs →
      6 ≤ vs.length → GetMean5M (ingest P vs) ≠ IntNA) :=
  ⟨fun h => ((ingest_early P vs).1 h).2,
   fun hP hv hno h => ne_of_gt ((gt_IntNA_of_filled P hP vs hv hno).1 h)⟩

/-- C6 after 1..5 and after 1..6. -/
theorem C6_mean5M_threshold_witness :
    GetMean5M (ingest zuno [1, 2, 3, 4, 5]) = IntNA ∧
    GetMean5M (ingest zuno [1, 2, 3, 4, 5, 6]) ≠ IntNA :=
  ⟨(C6_mean5M_threshold zuno [1, 2, 3, 4, 5]).1 (by decide),
   (C6_mean5M_threshold zuno [1, 2, 3, 4, 5, 6]).2 (by decide) (by decide) (by decide)
     (by decide)⟩

/-- C7: the 1-hour mean is IntNA while fewer than 61 values have been ingested, whatever
the values; with every value greater than IntNA and no arithmetic overflow it is not IntNA
once 61 or more values have been ingested. -/
theorem C7_mean1H_threshold (P : Platform) (vs : List Int) :
    (vs.length < 61 → GetMean1H (ingest P vs) = IntNA) ∧
    (P.Conforming → (∀ v ∈ vs, IntNA < v) → NoOverflowRun P DataLog24H.DataLog24H vs →
      61 ≤ vs.length → GetMean1H (ingest P vs) ≠ IntNA) :=
  ⟨fun h => ((ingest_early P vs).2.1 h).2,
   fun hP hv hno h => ne_of_gt ((gt_IntNA_of_filled P hP vs hv hno).2.1 h)⟩

/-- C7 after 60 and after 61 ingestions of the value 100. -/
theorem C7_mean1H_threshold_witness :
    GetMean1H (ingest zuno (List.replicate 60 100)) = IntNA ∧
    GetMean1H (ingest zuno (List.replicate 61 100)) ≠ IntNA :=
  ⟨(C7_mean1H_threshold zuno (List.replicate 60 100)).1 (by decide),
   (C7_mean1H_threshold zuno (List.replicate 61 100)).2 (by decide)
     (fun v hv => by rw [List.eq_of_mem_replicate hv]; decide)
     (const_run zuno (by decide) 100 (by decide) 61).2 (by decide)⟩

/-- C8: the 24-hour mean is IntNA after each of the first 1440 ingestions, whatever the
values; with every value greater than IntNA and no arithmetic overflow it is not IntNA
after the 1441st ingestion (nor after any later one). -/
theorem C8_mean24H_threshold (P : Platform) (vs : List Int) :
    (vs.length ≤ 1440 → GetMean24H (ingest P vs) = IntNA) ∧
    (P.Conforming → (∀ v ∈ vs, IntNA < v) → NoOverflowRun P DataLog24H.DataLog24H vs →
      1441 ≤ vs.length → GetMean24H (ingest P vs) ≠ IntNA) :=
  ⟨fun h => (ingest_early P vs).2.2 (by omega),
   fun hP hv hno h => ne_of_gt ((gt_IntNA_of_filled P hP vs hv hno).2.2 h)⟩

/-- C8 after 1440 and after 1441 ingestions of the value 100. -/
theorem C8_mean24H_threshold_witness :
    GetMean24H (ingest zuno (List.replicate 1440 100)) = IntNA ∧
    GetMean24H (ingest zuno (List.replicate 1441 100)) ≠ IntNA :=
  ⟨(C8_mean24H_threshold zuno (List.replicate 1440 100)).1 (List.length_replicate _ _).le,
   (C8_mean24H_threshold zuno (List.replicate 1441 100)).2 (by decide)
     (fun v hv => by rw [List.eq_of_mem_replicate hv]; decide)
     (const_run zuno (by decide) 100 (by decide) 1441).2 (List.length_replicate _ _).ge⟩

/-- C9: threshold monotonicity.  Along a run from the constructor in which every ingested
value is greater than IntNA and no arithmetic overflows, a mean (1M, 5M, 1H, 24H) that is
not IntNA before a call of AddData is not IntNA after it. -/
theorem C9_threshold_monotonicity (P : Platform) (hP : P.Conforming) (vs : List Int) (x : Int)
    (hv : ∀ v ∈ vs ++ [x], IntNA < v)
    (hno : NoOverflowRun P DataLog24H.DataLog24H (vs ++ [x])) :
    (GetMean1M (ingest P vs) ≠ IntNA → GetMean1M (ingest P (vs ++ [x])) ≠ IntNA) ∧
    (GetMean5M (ingest P vs) ≠ IntNA → GetMean5M (ingest P (vs ++ [x])) ≠ IntNA) ∧
    (GetMean1H (ingest P vs) ≠ IntNA → GetMean1H (ingest P (vs ++ [x])) ≠ IntNA) ∧
    (GetMean24H (ingest P vs) ≠ IntNA → GetMean24H (ingest P (vs ++ [x])) ≠ IntNA) := by
  rw [NoOverflowRun_snoc] at hno
  have hF := Filled_ingest P hP _ meanClosed_gt_IntNA vs (fun v h => hv v (by simp [h])) hno.1
  obtain ⟨m5, m1h, m24⟩ := new_means_of_filled P hP _ meanClosed_gt_IntNA vs hF hno.2
  obtain ⟨e5, e1h, e24⟩ := AddData_means P _ x (ingest_length P vs)
  unfold GetMean1M GetMean5M GetMean1H GetMean24H
  rw [ingest_snoc, AddData_Mean1M, e5, e1h, e24]
  refine ⟨fun _ => ne_of_gt (hv x (by simp)), fun h => ?_, fun h => ?_, fun h => ?_⟩
  · split_ifs with hc
    · exact ne_of_gt (m5 hc)
    · exact h
  · split_ifs with hc
    · exact ne_of_gt (m1h hc)
    · exact h
  · split_ifs with hc
    · exact ne_of_gt (m24 hc)
    · exact h

/-- C9 on the 7th ingestion of 1..7: the 1-minute and 5-minute means stay available. -/
theorem C9_threshold_monotonicity_witness :
    GetMean1M (ingest zuno ([1, 2, 3, 4, 5, 6] ++ [7])) ≠ IntNA ∧
    GetMean5M (ingest zuno ([1, 2, 3, 4, 5, 6] ++ [7])) ≠ IntNA :=
  ⟨(C9_threshold_monotonicity zuno (by decide) [1, 2, 3, 4, 5, 6] 7 (by decide)
      (by decide)).1 (by decide),
   (C9_threshold_monotonicity zuno (by decide) [1, 2, 3, 4, 5, 6] 7 (by decide)
      (by decide)).2.1 (by decide)⟩

/-- C10: end to end with a constant input.  If no arithmetic overflows while the value c is
ingested 1441 times into a freshly constructed object, then the four means all return c
and every one of the 39 slots (5 one-minute, 11 five-minute, 23 one-hour) equals c. -/
theorem C10_constant_input (P : Platform) (hP : P.Conforming) (c : Int)
    (hno : NoOverflowRun P DataLog24H.DataLog24H (List.replicate 1441 c)) :
    GetMean1M (ingest P (List.replicate 1441 c)) = c ∧
    GetMean5M (ingest P (List.replicate 1441 c)) = c ∧
    GetMean1H (ingest P (List.replicate 1441 c)) = c ∧
    GetMean24H (ingest P (List.replicate 1441 c)) = c ∧
    GetData1M (ingest P (List.replicate 1441 c)) = List.replicate 5 c ∧
    GetData5M (ingest P (List.replicate 1441 c)) = List.replicate 11 c ∧
    GetData1H (ingest P (List.replicate 1441 c)) = List.replicate 23 c ∧
    GetData (ingest P (List.replicate 1441 c)) = List.replicate 39 c := by
  have hF := Filled_ingest P hP _ (meanClosed_eq c) (List.replicate 1441 c)
    (fun v hv => List.eq_of_mem_replicate hv) hno
  rw [List.length_replicate] at hF
  obtain ⟨fA, fB, fC, f1, f5, f1h, f24⟩ := hF
  obtain ⟨hD, hA, hB, hC⟩ := data_split _ (ingest_length P (List.replicate 1441 c))
  have eA := List.eq_replicate_iff.mpr ⟨hA, PrefixAll_all _ _ _ fA (by omega)⟩
  have eB := List.eq_replicate_iff.mpr ⟨hB, PrefixAll_all _ _ _ fB (by omega)⟩
  have eC := List.eq_replicate_iff.mpr ⟨hC, PrefixAll_all _ _ _ fC (by omega)⟩
  refine ⟨f1 (by omega), f5 (by omega), f1h (by omega), f24 (by omega), eA, eB, eC, ?_⟩
  unfold GetData
  rw [hD, eA, eB, eC]
  simp

/-- C10 with c = 100. -/
theorem C10_constant_input_witness :
    GetMean1M (ingest zuno (List.replicate 1441 100)) = 100 ∧
    GetMean5M (ingest zuno (List.replicate 1441 100)) = 100 ∧
    GetMean1H (ingest zuno (List.replicate 1441 100)) = 100 ∧
    GetMean24H (ingest zuno (List.replicate 1441 100)) = 100 ∧
    GetData1M (ingest zuno (List.replicate 1441 100)) = List.replicate 5 100 ∧
    GetData5M (ingest zuno (List.replicate 1441 100)) = List.replicate 11 100 ∧
    GetData1H (ingest zuno (List.replicate 1441 100)) = List.replicate 23 100 ∧
    GetData (ingest zuno (List.replicate 1441 100)) = List.replicate 39 100 :=
  C10_constant_input zuno (by decide) 100 (const_run zuno (by decide) 100 (by decide) 1441).2

/-! ## One call of AddData: the cascade -/

theorem shiftIn_eq_cons_take (v : Int) (seg : List Int) (k : Nat) (h : seg.length = k + 1) :
    shiftIn v seg = v :: seg.take k := by
  unfold shiftIn
  rw [List.dropLast_eq_take, List.length_cons, h, Nat.add_sub_cancel, List.take_succ_cons]

theorem shiftIn_getElem?_succ (v : Int) (seg : List Int) (i : Nat) (h : i + 1 < seg.length) :
    (shiftIn v seg)[i + 1]? = seg[i]? := by
  obtain ⟨k, hk⟩ : ∃ k, seg.length = k + 1 := ⟨seg.length - 1, by omega⟩
  rw [shiftIn_eq_cons_take v seg k hk, List.getElem?_cons_succ, List.getElem?_take_of_lt (by omega)]

theorem shiftIn_getElem?_zero (v : Int) (seg : List Int) (h : 0 < seg.length) :
    (shiftIn v seg)[0]? = some v := by
  obtain ⟨k, hk⟩ : ∃ k, seg.length = k + 1 := ⟨seg.length - 1, by omega⟩
  rw [shiftIn_eq_cons_take v seg k hk]
  simp

/-- C11: a freshly constructed object has all 39 slots equal to IntNA = -32768, the four
means equal to IntNA and the counter equal to 0. -/
theorem C11_fresh_object :
    IntNA = -32768 ∧
    GetData DataLog24H.DataLog24H = List.replicate 39 IntNA ∧
    GetData1M DataLog24H.DataLog24H = List.replicate 5 IntNA ∧
    GetData5M DataLog24H.DataLog24H = List.replicate 11 IntNA ∧
    GetData1H DataLog24H.DataLog24H = List.replicate 23 IntNA ∧
    GetMean1M DataLog24H.DataLog24H = IntNA ∧
    GetMean5M DataLog24H.DataLog24H = IntNA ∧
    GetMean1H DataLog24H.DataLog24H = IntNA ∧
    GetMean24H DataLog24H.DataLog24H = IntNA ∧
    DataLog24H.DataLog24H.Counter = 0 := by
  refine ⟨rfl, rfl, rfl, rfl, rfl, rfl, rfl, rfl, rfl, rfl⟩

/-- C12, as the code has it: a call of AddData that is not on a 5-minute cadence boundary
(it brings the counter to n with n mod 5 ≠ 1) leaves Mean1H, Mean24H, the 5-minute segment
and the 1-hour segment as they were; Mean5M is left as it was only while n < 6, from n = 6
on every call rewrites it with the mean of the 1-minute segment before the call. -/
theorem C12_non_cadence_frame (P : Platform) (s : DataLog24H) (x : Int)
    (hs : s.Data.length = 39) (hn : (AddData P s x).Counter % 5 ≠ 1) :
    GetMean1H (AddData P s x) = GetMean1H s ∧
    GetMean24H (AddData P s x) = GetMean24H s ∧
    GetData5M (AddData P s x) = GetData5M s ∧
    GetData1H (AddData P s x) = GetData1H s ∧
    ((AddData P s x).Counter < 6 → GetMean5M (AddData P s x) = GetMean5M s) ∧
    (6 ≤ (AddData P s x).Counter → GetMean5M (AddData P s x) = new5M P s) := by
  obtain ⟨_, s5, s60⟩ := AddData_segments P s x hs
  obtain ⟨e5, e1h, e24⟩ := AddData_means P s x hs
  rw [AddData_Counter] at hn ⊢
  unfold GetMean1H GetMean24H GetMean5M
  rw [s5, s60, e5, e1h, e24]
  refine ⟨if_neg (by omega), if_neg (by omega), if_neg (by omega), if_neg (by omega),
    fun h => if_neg (by omega), fun h => if_pos h⟩

/-- C12 on the 7th ingestion of 1..7. -/
theorem C12_non_cadence_frame_witness :
    GetMean1H (AddData zuno (ingest zuno [1, 2, 3, 4, 5, 6]) 7)
      = GetMean1H (ingest zuno [1, 2, 3, 4, 5, 6]) ∧
    GetData5M (AddData zuno (ingest zuno [1, 2, 3, 4, 5, 6]) 7)
      = GetData5M (ingest zuno [1, 2, 3, 4, 5, 6]) ∧
    GetMean5M (AddData zuno (ingest zuno [1, 2, 3, 4, 5, 6]) 7)
      = new5M zuno (ingest zuno [1, 2, 3, 4, 5, 6]) :=
  ⟨(C12_non_cadence_frame zuno (ingest zuno [1, 2, 3, 4, 5, 6]) 7 (by decide) (by decide)).1,
   (C12_non_cadence_frame zuno (ingest zuno [1, 2, 3, 4, 5, 6]) 7 (by decide)
      (by decide)).2.2.1,
   (C12_non_cadence_frame zuno (ingest zuno [1, 2, 3, 4, 5, 6]) 7 (by decide)
      (by decide)).2.2.2.2.2 (by decide)⟩

/-- C12 as stated fails: the 7th ingestion of 1..7 brings the counter to 7, not a cadence
boundary, and changes GetMean5M from 3 to 4. -/
theorem C12_counterexample :
    (AddData zuno (ingest zuno [1, 2, 3, 4, 5, 6]) 7).Counter = 7 ∧
    GetMean5M (ingest zuno [1, 2, 3, 4, 5, 6]) = 3 ∧
    GetMean5M (AddData zuno (ingest zuno [1, 2, 3, 4, 5, 6]) 7) = 4 ∧
    GetMean5M (AddData zuno (ingest zuno [1, 2, 3, 4, 5, 6]) 7)
      ≠ GetMean5M (ingest zuno [1, 2, 3, 4, 5, 6]) := by
  decide

/-- C13: if AddData brings the counter to n with n ≥ 61 and n mod 5 = 1, then GetMean1H
afterwards is (m5 + s11) / 12 truncated toward zero, m5 the new Mean5M and s11 the sum of
the 11 values of the 5-minute segment before the call, provided that sum is representable;
on every other call Mean1H is unchanged. -/
theorem C13_mean1H_update (P : Platform) (hP : P.Conforming) (s : DataLog24H) (x : Int)
    (hs : s.Data.length = 39) :
    (61 ≤ (AddData P s x).Counter ∧ (AddData P s x).Counter % 5 = 1 →
      P.InRange (GetMean5M (AddData P s x) + (GetData5M s).sum) →
      GetMean1H (AddData P s x)
        = (GetMean5M (AddData P s x) + (GetData5M s).sum).tdiv 12) ∧
    (¬ (61 ≤ (AddData P s x).Counter ∧ (AddData P s x).Counter % 5 = 1) →
      GetMean1H (AddData P s x) = GetMean1H s) := by
  obtain ⟨e5, e1h, _⟩ := AddData_means P s x hs
  rw [AddData_Counter]
  unfold GetMean1H GetMean5M
  rw [e5, e1h]
  refine ⟨fun h hr => ?_, fun h => if_neg h⟩
  rw [if_pos (show 6 ≤ newCounter P s by omega)] at hr ⊢
  rw [if_pos h, new1H, wrapInt_of_inRange P hP.1 _ hr]

/-- C13 on a state with counter 60 and on the freshly constructed object. -/
theorem C13_mean1H_update_witness :
    GetMean1H (AddData zuno ⟨List.replicate 39 100, 100, 100, 100, 100, 60⟩ 7) = 100 ∧
    GetMean1H (AddData zuno DataLog24H.DataLog24H 7) = GetMean1H DataLog24H.DataLog24H :=
  ⟨(C13_mean1H_update zuno (by decide) ⟨List.replicate 39 100, 100, 100, 100, 100, 60⟩ 7
      (by decide)).1 (by decide) (by decide),
   (C13_mean1H_update zuno (by decide) DataLog24H.DataLog24H 7 (by decide)).2 (by decide)⟩

/-- C14: if AddData brings the counter to n with n ≥ 1441 and n mod 60 = 1, then
GetMean24H afterwards is (m1h + s23) / 24 truncated toward zero, m1h the new Mean1H and s23
the sum of the 23 values of the 1-hour segment before the call, provided that sum is
representable; on every other call Mean24H is unchanged. -/
theorem C14_mean24H_update (P : Platform) (hP : P.Conforming) (s : DataLog24H) (x : Int)
    (hs : s.Data.length = 39) :
    (1441 ≤ (AddData P s x).Counter ∧ (AddData P s x).Counter % 60 = 1 →
      P.InRange (GetMean1H (AddData P s x) + (GetData1H s).sum) →
      GetMean24H (AddData P s x)
        = (GetMean1H (AddData P s x) + (GetData1H s).sum).tdiv 24) ∧
    (¬ (1441 ≤ (AddData P s x).Counter ∧ (AddData P s x).Counter % 60 = 1) →
      GetMean24H (AddData P s x) = GetMean24H s) := by
  obtain ⟨_, e1h, e24⟩ := AddData_means P s x hs
  rw [AddData_Counter]
  unfold GetMean24H GetMean1H
  rw [e1h, e24]
  refine ⟨fun h hr => ?_, fun h => if_neg h⟩
  rw [if_pos (show 61 ≤ newCounter P s ∧ newCounter P s % 5 = 1 by omega)] at hr ⊢
  rw [if_pos h, new24H, wrapInt_of_inRange P hP.1 _ hr]

/-- C14 on a state with counter 1440 and on the freshly constructed object. -/
theorem C14_mean24H_update_witness :
    GetMean24H (AddData zuno ⟨List.replicate 39 100, 100, 100, 100, 100, 1440⟩ 7) = 100 ∧
    GetMean24H (AddData zuno DataLog24H.DataLog24H 7) = GetMean24H DataLog24H.DataLog24H :=
  ⟨(C14_mean24H_update zuno (by decide) ⟨List.replicate 39 100, 100, 100, 100, 100, 1440⟩ 7
      (by decide)).1 (by decide) (by decide),
   (C14_mean24H_update zuno (by decide) DataLog24H.DataLog24H 7 (by decide)).2 (by decide)⟩

/-- C15: cascade shift.  When AddData brings the counter to n with n ≥ 6 and n mod 5 = 1,
the 5-minute segment afterwards has the new Mean5M in slot 0 and the old slot i in slot i+1
for every i < 10 (the old slot 10 is evicted); when moreover n ≥ 61 and n mod 60 = 1, the
1-hour segment afterwards has the new Mean1H in slot 0 and the old slot j in slot j+1 for
every j < 22 (the old slot 22 is evicted). -/
theorem C15_cascade_shift (P : Platform) (s : DataLog24H) (x : Int)
    (hs : s.Data.length = 39) :
    (6 ≤ (AddData P s x).Counter ∧ (AddData P s x).Counter % 5 = 1 →
      GetData5M (AddData P s x) = GetMean5M (AddData P s x) :: (GetData5M s).take 10 ∧
      (GetData5M (AddData P s x))[0]? = some (GetMean5M (AddData P s x)) ∧
      ∀ i, i < 10 → (GetData5M (AddData P s x))[i + 1]? = (GetData5M s)[i]?) ∧
    (61 ≤ (AddData P s x).Counter ∧ (AddData P s x).Counter % 60 = 1 →
      GetData1H (AddData P s x) = GetMean1H (AddData P s x) :: (GetData1H s).take 22 ∧
      (GetData1H (AddData P s x))[0]? = some (GetMean1H (AddData P s x)) ∧
      ∀ j, j < 22 → (GetData1H (AddData P s x))[j + 1]? = (GetData1H s)[j]?) := by
  obtain ⟨_, _, hB, hC⟩ := data_split s hs
  obtain ⟨_, s5, s60⟩ := AddData_segments P s x hs
  obtain ⟨e5, e1h, _⟩ := AddData_means P s x hs
  rw [AddData_Counter]
  unfold GetMean5M GetMean1H
  rw [s5, s60, e5, e1h]
  refine ⟨fun h => ?_, fun h => ?_⟩
  · rw [if_pos h, if_pos h.1]
    exact ⟨shiftIn_eq_cons_take _ _ 10 hB, shiftIn_getElem?_zero _ _ (by omega),
      fun i hi => shiftIn_getElem?_succ _ _ i (by omega)⟩
  · rw [if_pos h, if_pos (show 61 ≤ newCounter P s ∧ newCounter P s % 5 = 1 by omega)]
    exact ⟨shiftIn_eq_cons_take _ _ 22 hC, shiftIn_getElem?_zero _ _ (by omega),
      fun j hj => shiftIn_getElem?_succ _ _ j (by omega)⟩

/-- C15 on the 6th ingestion of 1..6 and on a state with counter 60. -/
theorem C15_cascade_shift_witness :
    GetData5M (AddData zuno (ingest zuno [1, 2, 3, 4, 5]) 6)
      = GetMean5M (AddData zuno (ingest zuno [1, 2, 3, 4, 5]) 6)
        :: (GetData5M (ingest zuno [1, 2, 3, 4, 5])).take 10 ∧
    (GetData1H (AddData zuno ⟨List.replicate 39 100, 100, 100, 100, 100, 60⟩ 7))[0]?
      = some (GetMean1H (AddData zuno ⟨List.replicate 39 100, 100, 100, 100, 100, 60⟩ 7)) :=
  ⟨((C15_cascade_shift zuno (ingest zuno [1, 2, 3, 4, 5]) 6 (by decide)).1 (by decide)).1,
   ((C15_cascade_shift zuno ⟨List.replicate 39 100, 100, 100, 100, 100, 60⟩ 7
      (by decide)).2 (by decide)).2.1⟩

/-! ## The stored means as truncated quotients -/

theorem truncQuot_tdiv (S d : Int) (hd : 0 < d) : TruncQuot S d (S.tdiv d) := by
  rcases le_or_lt 0 S with hS | hS
  · rw [Int.tdiv_eq_ediv hS hd.le]
    have hq0 : 0 ≤ S / d := Int.ediv_nonneg hS hd.le
    have h1 : S / d * d ≤ S := Int.ediv_mul_le S hd.ne'
    have h2 : S < (S / d + 1) * d := Int.lt_ediv_add_one_mul_self S hd
    have h3 : 0 ≤ S / d * d := mul_nonneg hq0 hd.le
    refine ⟨?_, ?_, ?_⟩
    · rw [abs_of_nonneg h3, abs_of_nonneg hS]; exact h1
    · rw [abs_of_nonneg h3, abs_of_nonneg hS]; linarith
    · rcases eq_or_lt_of_le hq0 with h0 | hpos
      · exact Or.inl h0.symm
      · right
        have : 0 < S := lt_of_lt_of_le (mul_pos hpos hd) h1
        rw [Int.sign_eq_one_of_pos hpos, Int.sign_eq_one_of_pos this]
  · have e : S.tdiv d = -((-S) / d) := by
      rw [← Int.tdiv_eq_ediv (by omega) hd.le, Int.neg_tdiv, neg_neg]
    rw [e]
    have hq0 : 0 ≤ (-S) / d := Int.ediv_nonneg (by omega) hd.le
    have h1 : (-S) / d * d ≤ -S := Int.ediv_mul_le (-S) hd.ne'
    have h2 : -S < ((-S) / d + 1) * d := Int.lt_ediv_add_one_mul_self (-S) hd
    have h3 : 0 ≤ (-S) / d * d := mul_nonneg hq0 hd.le
    have h4 : |(-(-S / d)) * d| = (-S) / d * d := by
      rw [neg_mul, abs_neg, abs_of_nonneg h3]
    refine ⟨?_, ?_, ?_⟩
    · rw [h4, abs_of_neg hS]; exact h1
    · rw [h4, abs_of_neg hS]; linarith
    · rcases eq_or_lt_of_le hq0 with h0 | hpos
      · left; rw [← h0]; rfl
      · right
        rw [Int.sign_eq_neg_one_of_neg (by omega), Int.sign_eq_neg_one_of_neg hS]

/-- With representable sums the three stored means are the exact truncated quotients. -/
theorem AddData_means_exact (P : Platform) (hP : P.Conforming) (s : DataLog24H) (x : Int)
    (hs : s.Data.length = 39) :
    (6 ≤ newCounter P s → P.InRange (GetData1M s).sum →
      (AddData P s x).Mean5M = (GetData1M s).sum.tdiv 5) ∧
    (61 ≤ newCounter P s ∧ newCounter P s % 5 = 1 →
      P.InRange ((AddData P s x).Mean5M + (GetData5M s).sum) →
      (AddData P s x).Mean1H = ((AddData P s x).Mean5M + (GetData5M s).sum).tdiv 12) ∧
    (1441 ≤ newCounter P s ∧ newCounter P s % 60 = 1 →
      P.InRange ((AddData P s x).Mean1H + (GetData1H s).sum) →
      (AddData P s x).Mean24H = ((AddData P s x).Mean1H + (GetData1H s).sum).tdiv 24) := by
  obtain ⟨e5, e1h, e24⟩ := AddData_means P s x hs
  rw [e5, e1h, e24]
  refine ⟨fun h hr => ?_, fun h hr => ?_, fun h hr => ?_⟩
  · rw [if_pos h, new5M, wrapInt_of_inRange P hP.1 _ hr]
  · rw [if_pos (show 6 ≤ newCounter P s by omega)] at hr ⊢
    rw [if_pos h, new1H, wrapInt_of_inRange P hP.1 _ hr]
  · rw [if_pos (show 61 ≤ newCounter P s ∧ newCounter P s % 5 = 1 by omega)] at hr ⊢
    rw [if_pos h, new24H, wrapInt_of_inRange P hP.1 _ hr]

/-- The 5-minute mean after a run with at least six values, counter not wrapped. -/
theorem ingest_Mean5M (P : Platform) (hP : P.Conforming) (vs : List Int) (x : Int)
    (h5 : 5 ≤ vs.length) (hn : vs.length + 1 < 2 ^ P.ulongBits)
    (hsum : P.InRange (vs.reverse.take 5).sum) :
    (ingest P (vs ++ [x])).Mean5M = (vs.reverse.take 5).sum.tdiv 5 := by
  have hA : GetData1M (ingest P vs) = vs.reverse.take 5 := by
    rw [ingest_GetData1M, List.take_append_of_le_length (by simpa using h5)]
  rw [ingest_snoc, (AddData_means P _ x (ingest_length P vs)).1,
    newCounter_ingest_of_lt P vs hn, if_pos (by omega), new5M, hA,
    wrapInt_of_inRange P hP.1 _ hsum]

theorem inRange_small (P : Platform) (hP : P.Conforming) (v : Int) (h1 : -32768 ≤ v)
    (h2 : v < 32768) : P.InRange v := by
  obtain ⟨_, hH⟩ := two_pow_intBits P hP.1
  unfold Platform.InRange
  omega

/-- C16: rounding rule.  Every mean that AddData stores is the quotient, truncated toward
zero, of the accumulated sum, that is of the value the `int` variable Mean holds when it is
divided (the sum of the slots, wrapped to the `int` width; the exact sum whenever that is
representable): Mean5M = sum/5, Mean1H = sum/12, Mean24H = sum/24, and for the sum S and the
divisor d the stored mean q satisfies |q*d| ≤ |S| < |q*d| + d and q has the sign of S or
is 0, for negative sums too.  Ingesting -1,-1,-1,-1,-3 and then any sixth value yields
GetMean5M = -1 (sum -7, not floored to -2). -/
theorem C16_rounding_rule (P : Platform) :
    (∀ (s : DataLog24H) (x : Int), s.Data.length = 39 →
      (6 ≤ (AddData P s x).Counter →
        GetMean5M (AddData P s x) = (P.wrapInt (GetData1M s).sum).tdiv 5 ∧
        TruncQuot (P.wrapInt (GetData1M s).sum) 5 (GetMean5M (AddData P s x))) ∧
      (61 ≤ (AddData P s x).Counter ∧ (AddData P s x).Counter % 5 = 1 →
        GetMean1H (AddData P s x)
          = (P.wrapInt (GetMean5M (AddData P s x) + (GetData5M s).sum)).tdiv 12 ∧
        TruncQuot (P.wrapInt (GetMean5M (AddData P s x) + (GetData5M s).sum)) 12
          (GetMean1H (AddData P s x))) ∧
      (1441 ≤ (AddData P s x).Counter ∧ (AddData P s x).Counter % 60 = 1 →
        GetMean24H (AddData P s x)
          = (P.wrapInt (GetMean1H (AddData P s x) + (GetData1H s).sum)).tdiv 24 ∧
        TruncQuot (P.wrapInt (GetMean1H (AddData P s x) + (GetData1H s).sum)) 24
          (GetMean24H (AddData P s x)))) ∧
    (∀ S : Int, TruncQuot S 5 (S.tdiv 5) ∧ TruncQuot S 12 (S.tdiv 12) ∧
      TruncQuot S 24 (S.tdiv 24)) ∧
    (P.Conforming →
      (∀ S : Int, P.InRange S → P.wrapInt S = S) ∧
      (∀ x : Int, GetMean5M (ingest P [-1, -1, -1, -1, -3, x]) = -1) ∧
      TruncQuot (-7) 5 (-1) ∧ ¬ TruncQuot (-7) 5 (-2)) := by
  refine ⟨fun s x hs => ?_,
    fun S => ⟨truncQuot_tdiv S 5 (by norm_num), truncQuot_tdiv S 12 (by norm_num),
      truncQuot_tdiv S 24 (by norm_num)⟩,
    fun hP => ⟨fun S hS => wrapInt_of_inRange P hP.1 S hS, fun x => ?_, by decide, by decide⟩⟩
  · obtain ⟨e5, e1h, e24⟩ := AddData_means P s x hs
    rw [AddData_Counter]
    unfold GetMean5M GetMean1H GetMean24H
    rw [e5, e1h, e24]
    refine ⟨fun h => ?_, fun h => ?_, fun h => ?_⟩
    · rw [if_pos h]
      exact ⟨rfl, truncQuot_tdiv _ 5 (by norm_num)⟩
    · rw [if_pos h, if_pos (show 6 ≤ newCounter P s by omega)]
      exact ⟨rfl, truncQuot_tdiv _ 12 (by norm_num)⟩
    · rw [if_pos h, if_pos (show 61 ≤ newCounter P s ∧ newCounter P s % 5 = 1 by omega)]
      exact ⟨rfl, truncQuot_tdiv _ 24 (by norm_num)⟩
  · have hM := two_pow_ulongBits P hP.2
    have := ingest_Mean5M P hP [-1, -1, -1, -1, -3] x (by decide)
      (by simp only [List.length_cons, List.length_nil]; omega)
      (inRange_small P hP _ (by decide) (by decide))
    exact this

/-- C16 on the sixth ingestion after -1,-1,-1,-1,-3, on the sixth ingestion after five
times 7000 (the 16 bit sum wraps to -30536, the stored mean is -6107) and on a state with
counter 1440. -/
theorem C16_rounding_rule_witness :
    GetMean5M (AddData zuno (ingest zuno [-1, -1, -1, -1, -3]) 0) = -1 ∧
    GetMean5M (AddData zuno (ingest zuno [7000, 7000, 7000, 7000, 7000]) 0) = -6107 ∧
    TruncQuot (zuno.wrapInt (GetData1M (ingest zuno [7000, 7000, 7000, 7000, 7000])).sum) 5
      (GetMean5M (AddData zuno (ingest zuno [7000, 7000, 7000, 7000, 7000]) 0)) ∧
    TruncQuot
      (zuno.wrapInt
        (GetMean5M (AddData zuno ⟨List.replicate 39 (-7), -7, -7, -7, -7, 1440⟩ 0)
          + (GetData5M ⟨List.replicate 39 (-7), -7, -7, -7, -7, 1440⟩).sum)) 12
      (GetMean1H (AddData zuno ⟨List.replicate 39 (-7), -7, -7, -7, -7, 1440⟩ 0)) ∧
    TruncQuot
      (zuno.wrapInt
        (GetMean1H (AddData zuno ⟨List.replicate 39 (-7), -7, -7, -7, -7, 1440⟩ 0)
          + (GetData1H ⟨List.replicate 39 (-7), -7, -7, -7, -7, 1440⟩).sum)) 24
      (GetMean24H (AddData zuno ⟨List.replicate 39 (-7), -7, -7, -7, -7, 1440⟩ 0)) ∧
    GetMean5M (ingest zuno [-1, -1, -1, -1, -3, 0]) = -1 :=
  ⟨((((C16_rounding_rule zuno).1 (ingest zuno [-1, -1, -1, -1, -3]) 0
      (by decide)).1) (by decide)).1,
   ((((C16_rounding_rule zuno).1 (ingest zuno [7000, 7000, 7000, 7000, 7000]) 0
      (by decide)).1) (by decide)).1,
   ((((C16_rounding_rule zuno).1 (ingest zuno [7000, 7000, 7000, 7000, 7000]) 0
      (by decide)).1) (by decide)).2,
   ((((C16_rounding_rule zuno).1
      ⟨List.replicate 39 (-7), -7, -7, -7, -7, 1440⟩ 0 (by decide)).2.1) (by decide)).2,
   ((((C16_rounding_rule zuno).1
      ⟨List.replicate 39 (-7), -7, -7, -7, -7, 1440⟩ 0 (by decide)).2.2) (by decide)).2,
   ((C16_rounding_rule zuno).2.2 (by decide)).2.1 0⟩

/-- C17, as the code has it: after n ≥ 6 ingestions, with the counter not wrapped around
(n below 2 to the width of `unsigned long`) and the sum representable, GetMean5M is
(v(n-5) + v(n-4) + v(n-3) + v(n-2) + v(n-1)) / 5 truncated toward zero: the mean of the five
samples before the current one; it does not depend on the value vn just ingested. -/
theorem C17_mean5M_preceding_samples (P : Platform) (hP : P.Conforming) (pre : List Int)
    (a b c d e x : Int) (hn : pre.length + 6 < 2 ^ P.ulongBits)
    (hsum : P.InRange (a + b + c + d + e)) :
    GetMean5M (ingest P (pre ++ [a, b, c, d, e, x])) = (a + b + c + d + e).tdiv 5 ∧
    ∀ y : Int, GetMean5M (ingest P (pre ++ [a, b, c, d, e, y]))
      = GetMean5M (ingest P (pre ++ [a, b, c, d, e, x])) := by
  have hrev : ((pre ++ [a, b, c, d, e]).reverse.take 5).sum = a + b + c + d + e := by
    simp only [List.reverse_append, List.reverse_cons, List.reverse_nil, List.nil_append,
      List.cons_append, List.take_succ_cons, List.take_zero, List.sum_cons, List.sum_nil]
    ring
  have key : ∀ y : Int,
      GetMean5M (ingest P (pre ++ [a, b, c, d, e, y])) = (a + b + c + d + e).tdiv 5 := by
    intro y
    have e1 : pre ++ [a, b, c, d, e, y] = (pre ++ [a, b, c, d, e]) ++ [y] := by simp
    have := ingest_Mean5M P hP (pre ++ [a, b, c, d, e]) y (by simp)
      (by simp only [List.length_append, List.length_cons, List.length_nil]; omega)
      (by rw [hrev]; exact hsum)
    rw [hrev] at this
    unfold GetMean5M
    rw [e1, this]
  exact ⟨key x, fun y => by rw [key y, key x]⟩

/-- C17 on 1,2,3,4,5,6 (no values before them): the mean is (1+2+3+4+5)/5 = 3. -/
theorem C17_mean5M_preceding_samples_witness :
    GetMean5M (ingest zuno ([] ++ [1, 2, 3, 4, 5, 6])) = 3 ∧
    GetMean5M (ingest zuno ([] ++ [1, 2, 3, 4, 5, 1000]))
      = GetMean5M (ingest zuno ([] ++ [1, 2, 3, 4, 5, 6])) :=
  ⟨(C17_mean5M_preceding_samples zuno (by decide) [] 1 2 3 4 5 6 (by decide) (by decide)).1,
   (C17_mean5M_preceding_samples zuno (by decide) [] 1 2 3 4 5 6 (by decide) (by decide)).2
     1000⟩

/-! ## The 5-minute segment as block means -/

theorem sum_reverse_take_five (vs : List Int) (h : 5 ≤ vs.length) :
    (vs.reverse.take 5).sum = vs.getD (vs.length - 5) 0 + vs.getD (vs.length - 4) 0
      + vs.getD (vs.length - 3) 0 + vs.getD (vs.length - 2) 0 + vs.getD (vs.length - 1) 0 := by
  generalize hr : vs.reverse = r
  have hv : vs = r.reverse := by rw [← hr, List.reverse_reverse]
  subst hv
  match r, h with
  | e :: d :: c :: b :: a :: rest, _ =>
    have l : (e :: d :: c :: b :: a :: rest).reverse = rest.reverse ++ [a, b, c, d, e] := by
      simp
    rw [l]
    have g : ∀ i, (rest.reverse ++ [a, b, c, d, e]).getD (rest.reverse.length + i) 0
        = [a, b, c, d, e].getD i 0 := by
      intro i
      rw [List.getD_append_right _ _ _ _ (by omega)]
      simp
    have e5 : (rest.reverse ++ [a, b, c, d, e]).length = rest.reverse.length + 5 := by simp
    rw [e5]
    have i1 : rest.reverse.length + 5 - 5 = rest.reverse.length + 0 := by omega
    have i2 : rest.reverse.length + 5 - 4 = rest.reverse.length + 1 := by omega
    have i3 : rest.reverse.length + 5 - 3 = rest.reverse.length + 2 := by omega
    have i4 : rest.reverse.length + 5 - 2 = rest.reverse.length + 3 := by omega
    have i5 : rest.reverse.length + 5 - 1 = rest.reverse.length + 4 := by omega
    rw [i1, i2, i3, i4, i5, g, g, g, g, g]
    simp
    ring

theorem blockMean_append (vs ws : List Int) (j : Nat) (h1 : 1 ≤ j) (h5 : 5 * j ≤ vs.length) :
    blockMean (vs ++ ws) j = blockMean vs j := by
  unfold blockMean
  rw [List.getD_append _ _ _ _ (by omega), List.getD_append _ _ _ _ (by omega),
    List.getD_append _ _ _ _ (by omega), List.getD_append _ _ _ _ (by omega),
    List.getD_append _ _ _ _ (by omega)]

theorem blockMean_last (vs : List Int) (j : Nat) (h1 : 1 ≤ j) (h5 : vs.length = 5 * j) :
    blockMean vs j = (vs.reverse.take 5).sum.tdiv 5 := by
  unfold blockMean
  rw [sum_reverse_take_five vs (by omega), h5]

/-- Along a run without overflow and without counter wrap-around the filled slots of the
5-minute segment are the means of the complete blocks of five samples, newest first. -/
theorem ingest_blocks (P : Platform) (hP : P.Conforming) (vs : List Int)
    (hn : vs.length < 2 ^ P.ulongBits) (hno : NoOverflowRun P DataLog24H.DataLog24H vs) :
    ∀ k, k < (vs.length - 1) / 5 → k < 11 →
      (GetData5M (ingest P vs))[k]? = some (blockMean vs ((vs.length - 1) / 5 - k)) := by
  induction vs using List.reverseRecOn with
  | nil => intro k hk; simp at hk
  | append_singleton vs x ih =>
    rw [NoOverflowRun_snoc] at hno
    simp only [List.length_append, List.length_singleton, Nat.add_sub_cancel] at hn ⊢
    have ih' := ih (by omega) hno.1
    obtain ⟨_, hA, hB, _⟩ := data_split _ (ingest_length P vs)
    have hc := newCounter_ingest_of_lt P vs hn
    have s5 := (AddData_segments P _ x (ingest_length P vs)).2.1
    have n5 : 6 ≤ newCounter P (ingest P vs) → P.InRange (GetData1M (ingest P vs)).sum :=
      hno.2.1
    rw [hc] at s5
    have n5' : 6 ≤ vs.length + 1 → P.InRange (GetData1M (ingest P vs)).sum := by
      intro h; apply n5; rw [hc]; exact h
    intro k hk1 hk2
    rw [ingest_snoc, s5]
    by_cases hshift : 6 ≤ vs.length + 1 ∧ (vs.length + 1) % 5 = 1
    · rw [if_pos hshift]
      cases k with
      | zero =>
        rw [shiftIn_getElem?_zero _ _ (by omega), Nat.sub_zero,
          blockMean_append vs [x] _ (by omega) (by omega),
          blockMean_last vs _ (by omega) (by omega), new5M,
          wrapInt_of_inRange P hP.1 _ (n5' hshift.1), ingest_GetData1M,
          List.take_append_of_le_length (by simp; omega)]
      | succ k =>
        rw [shiftIn_getElem?_succ _ _ k (by omega), ih' k (by omega) (by omega),
          blockMean_append vs [x] _ (by omega) (by omega)]
        congr 2
        omega
    · rw [if_neg hshift, ih' k (by omega) (by omega),
        blockMean_append vs [x] _ (by omega) (by omega)]
      congr 2
      omega

/-- C18, as the code has it: block-mean content of the 5-minute segment.  After ingesting
v1..vn, with no overflow and the counter not wrapped around (n below 2 to the width of
`unsigned long`), with m = floor((n-1)/5), every slot k < min(m, 11) of the 5-minute
segment is the mean, truncated toward zero, of the block v(5j-4)..v(5j) of five consecutive
samples with j = m - k. -/
theorem C18_segment_5M_block_means (P : Platform) (hP : P.Conforming) (vs : List Int)
    (hn : vs.length < 2 ^ P.ulongBits) (hno : NoOverflowRun P DataLog24H.DataLog24H vs) :
    ∀ k, k < min ((vs.length - 1) / 5) 11 →
      (GetData5M (ingest P vs))[k]?
        = some ((vs.getD (5 * ((vs.length - 1) / 5 - k) - 5) 0
            + vs.getD (5 * ((vs.length - 1) / 5 - k) - 4) 0
            + vs.getD (5 * ((vs.length - 1) / 5 - k) - 3) 0
            + vs.getD (5 * ((vs.length - 1) / 5 - k) - 2) 0
            + vs.getD (5 * ((vs.length - 1) / 5 - k) - 1) 0).tdiv 5) ∧
      (GetData5M (ingest P vs))[k]? = some (blockMean vs ((vs.length - 1) / 5 - k)) := by
  intro k hk
  have := ingest_blocks P hP vs hn hno k (by omega) (by omega)
  exact ⟨this, this⟩

/-- C18 after 1..11: slot 0 is the mean of 6..10, slot 1 the mean of 1..5. -/
theorem C18_segment_5M_block_means_witness :
    (GetData5M (ingest zuno [1, 2, 3, 4, 5, 6, 7, 8, 9, 10, 11]))[0]? = some 8 ∧
    (GetData5M (ingest zuno [1, 2, 3, 4, 5, 6, 7, 8, 9, 10, 11]))[1]? = some 3 :=
  ⟨((C18_segment_5M_block_means zuno (by decide) [1, 2, 3, 4, 5, 6, 7, 8, 9, 10, 11]
      (by decide) (by decide)) 0 (by decide)).1,
   ((C18_segment_5M_block_means zuno (by decide) [1, 2, 3, 4, 5, 6, 7, 8, 9, 10, 11]
      (by decide) (by decide)) 1 (by decide)).1⟩

/-! ## The slots that have not been filled yet -/

theorem Unfilled_shiftIn (v : Int) (seg : List Int) (k : Nat) (h : Unfilled k seg) :
    Unfilled (k + 1) (shiftIn v seg) := by
  intro i w hi hget
  unfold shiftIn at hget
  rw [List.dropLast_eq_take, List.getElem?_take] at hget
  split_ifs at hget
  cases i with
  | zero => omega
  | succ j =>
    rw [List.getElem?_cons_succ] at hget
    exact h j w (by omega) hget

theorem Unfilled_of_length_le (seg : List Int) (k : Nat) (h : seg.length ≤ k) :
    Unfilled k seg := by
  intro i w hi hget
  rw [List.getElem?_eq_none (by omega)] at hget
  exact Option.noConfusion hget

theorem Unfilled_replicate (k n : Nat) : Unfilled k (List.replicate n IntNA) := by
  intro i w _ hget
  rw [List.getElem?_replicate] at hget
  split_ifs at hget
  exact (Option.some.inj hget).symm

/-- The slots behind the filled prefix of each segment hold IntNA, whatever the ingested
values are. -/
theorem ingest_unfilled (P : Platform) (hP : P.Conforming) (vs : List Int) :
    Unfilled vs.length (GetData1M (ingest P vs)) ∧
    Unfilled ((vs.length - 1) / 5) (GetData5M (ingest P vs)) ∧
    Unfilled ((vs.length - 1) / 60) (GetData1H (ingest P vs)) := by
  induction vs using List.reverseRecOn with
  | nil => exact ⟨Unfilled_replicate _ 5, Unfilled_replicate _ 11, Unfilled_replicate _ 23⟩
  | append_singleton vs x ih =>
    obtain ⟨u1, u5, u60⟩ := ih
    obtain ⟨_, _, hB, hC⟩ := data_split _ (ingest_length P vs)
    obtain ⟨s1, s5, s60⟩ := AddData_segments P _ x (ingest_length P vs)
    have hM := two_pow_ulongBits P hP.2
    have hle := newCounter_ingest_le P vs
    have hc : vs.length + 1 < 2 ^ P.ulongBits → newCounter P (ingest P vs) = vs.length + 1 :=
      newCounter_ingest_of_lt P vs
    simp only [List.length_append, List.length_singleton, Nat.add_sub_cancel]
    rw [ingest_snoc, s1, s5, s60]
    generalize newCounter P (ingest P vs) = c at *
    generalize 2 ^ P.ulongBits = M at *
    refine ⟨Unfilled_shiftIn x _ _ u1, ?_, ?_⟩
    · rcases Nat.lt_or_ge (vs.length + 1) M with hlt | hge
      · have hce := hc hlt
        split_ifs with hcond
        · have e : vs.length / 5 = (vs.length - 1) / 5 + 1 := by omega
          rw [e]; exact Unfilled_shiftIn _ _ _ u5
        · have e : vs.length / 5 = (vs.length - 1) / 5 := by omega
          rw [e]; exact u5
      · apply Unfilled_of_length_le
        split_ifs
        · rw [shiftIn_length, hB]; omega
        · rw [hB]; omega
    · rcases Nat.lt_or_ge (vs.length + 1) M with hlt | hge
      · have hce := hc hlt
        split_ifs with hcond
        · have e : vs.length / 60 = (vs.length - 1) / 60 + 1 := by omega
          rw [e]; exact Unfilled_shiftIn _ _ _ u60
        · have e : vs.length / 60 = (vs.length - 1) / 60 := by omega
          rw [e]; exact u60
      · apply Unfilled_of_length_le
        split_ifs
        · rw [shiftIn_length, hC]; omega
        · rw [hC]; omega

theorem slot_of_filled_unfilled (p : Int → Prop) (k : Nat) (seg : List Int)
    (hf : PrefixAll p k seg) (hu : Unfilled k seg) : ∀ w ∈ seg, w = IntNA ∨ p w := by
  intro w hw
  obtain ⟨i, hi⟩ := List.getElem?_of_mem hw
  rcases Nat.lt_or_ge i k with h | h
  · exact Or.inr (hf i w h hi)
  · exact Or.inl (hu i w h hi)

theorem slot_iff_of_filled_unfilled (k len : Nat) (seg : List Int) (hlen : seg.length = len)
    (hf : PrefixAll (fun v => IntNA < v) k seg) (hu : Unfilled k seg) :
    ∀ i, i < len → ∃ w, seg[i]? = some w ∧ (w ≠ IntNA ↔ i < k) := by
  intro i hi
  have hlt : i < seg.length := by omega
  refine ⟨seg[i], List.getElem?_eq_getElem hlt, fun h => ?_, fun h => ?_⟩
  · by_contra hn
    exact h (hu i _ (by omega) (List.getElem?_eq_getElem hlt))
  · exact ne_of_gt (hf i _ h (List.getElem?_eq_getElem hlt))

theorem means_of_filled (P : Platform) (p : Int → Prop) (vs : List Int)
    (hF : Filled p vs.length (ingest P vs)) :
    ((ingest P vs).Mean1M = IntNA ∨ p (ingest P vs).Mean1M) ∧
    ((ingest P vs).Mean5M = IntNA ∨ p (ingest P vs).Mean5M) ∧
    ((ingest P vs).Mean1H = IntNA ∨ p (ingest P vs).Mean1H) ∧
    ((ingest P vs).Mean24H = IntNA ∨ p (ingest P vs).Mean24H) := by
  obtain ⟨_, _, _, f1, f5, f1h, f24⟩ := hF
  obtain ⟨e5, e1h, e24⟩ := ingest_early P vs
  refine ⟨?_, ?_, ?_, ?_⟩
  · rcases Nat.lt_or_ge vs.length 1 with h | h
    · left
      have : vs = [] := List.length_eq_zero.mp (by omega)
      rw [this]; rfl
    · exact Or.inr (f1 h)
  · rcases Nat.lt_or_ge vs.length 6 with h | h
    · exact Or.inl (e5 h).2
    · exact Or.inr (f5 h)
  · rcases Nat.lt_or_ge vs.length 61 with h | h
    · exact Or.inl (e1h h).2
    · exact Or.inr (f1h h)
  · rcases Nat.lt_or_ge vs.length 1441 with h | h
    · exact Or.inl (e24 h)
    · exact Or.inr (f24 h)

/-- C19: population invariant.  After ingesting n values, each greater than IntNA and
without overflow, the slots that do not hold IntNA form a prefix of each segment whose
length depends on n alone: 1-minute slot i iff i < n, 5-minute slot i iff
i < floor((n-1)/5), 1-hour slot i iff i < floor((n-1)/60).  Hence whenever the next call of
AddData stores a mean, all the slots it has summed for that mean hold ingested or computed
values, not IntNA. -/
theorem C19_population_invariant (P : Platform) (hP : P.Conforming) (vs : List Int)
    (hv : ∀ v ∈ vs, IntNA < v) (hno : NoOverflowRun P DataLog24H.DataLog24H vs) :
    (∀ i, i < 5 →
      ∃ w, (GetData1M (ingest P vs))[i]? = some w ∧ (w ≠ IntNA ↔ i < vs.length)) ∧
    (∀ i, i < 11 →
      ∃ w, (GetData5M (ingest P vs))[i]? = some w ∧
        (w ≠ IntNA ↔ i < (vs.length - 1) / 5)) ∧
    (∀ i, i < 23 →
      ∃ w, (GetData1H (ingest P vs))[i]? = some w ∧
        (w ≠ IntNA ↔ i < (vs.length - 1) / 60)) ∧
    (∀ x : Int,
      (6 ≤ (AddData P (ingest P vs) x).Counter →
        ∀ w ∈ GetData1M (ingest P vs), w ≠ IntNA) ∧
      (61 ≤ (AddData P (ingest P vs) x).Counter ∧
          (AddData P (ingest P vs) x).Counter % 5 = 1 →
        ∀ w ∈ GetData5M (ingest P vs), w ≠ IntNA) ∧
      (1441 ≤ (AddData P (ingest P vs) x).Counter ∧
          (AddData P (ingest P vs) x).Counter % 60 = 1 →
        ∀ w ∈ GetData1H (ingest P vs), w ≠ IntNA)) := by
  obtain ⟨fA, fB, fC, _⟩ := Filled_ingest P hP _ meanClosed_gt_IntNA vs hv hno
  obtain ⟨uA, uB, uC⟩ := ingest_unfilled P hP vs
  obtain ⟨_, hA, hB, hC⟩ := data_split _ (ingest_length P vs)
  have hle := newCounter_ingest_le P vs
  refine ⟨slot_iff_of_filled_unfilled _ 5 _ hA fA uA,
    slot_iff_of_filled_unfilled _ 11 _ hB fB uB,
    slot_iff_of_filled_unfilled _ 23 _ hC fC uC, fun x => ?_⟩
  rw [AddData_Counter]
  refine ⟨fun h w hw => ?_, fun h w hw => ?_, fun h w hw => ?_⟩
  · exact ne_of_gt (PrefixAll_all _ _ _ fA (by omega) w hw)
  · exact ne_of_gt (PrefixAll_all _ _ _ fB (by omega) w hw)
  · exact ne_of_gt (PrefixAll_all _ _ _ fC (by omega) w hw)

/-- C19 after 1..7: 5-minute slot 0 is filled, slot 1 is not, and the 8th call sums only
filled 1-minute slots. -/
theorem C19_population_invariant_witness :
    (∃ w, (GetData5M (ingest zuno [1, 2, 3, 4, 5, 6, 7]))[0]? = some w ∧
      (w ≠ IntNA ↔ 0 < ([1, 2, 3, 4, 5, 6, 7].length - 1) / 5)) ∧
    (∃ w, (GetData5M (ingest zuno [1, 2, 3, 4, 5, 6, 7]))[1]? = some w ∧
      (w ≠ IntNA ↔ 1 < ([1, 2, 3, 4, 5, 6, 7].length - 1) / 5)) ∧
    (∀ w ∈ GetData1M (ingest zuno [1, 2, 3, 4, 5, 6, 7]), w ≠ IntNA) :=
  ⟨(C19_population_invariant zuno (by decide) [1, 2, 3, 4, 5, 6, 7] (by decide)
      (by decide)).2.1 0 (by decide),
   (C19_population_invariant zuno (by decide) [1, 2, 3, 4, 5, 6, 7] (by decide)
      (by decide)).2.1 1 (by decide),
   ((C19_population_invariant zuno (by decide) [1, 2, 3, 4, 5, 6, 7] (by decide)
      (by decide)).2.2.2 8).1 (by decide)⟩

/-- C20: bounds preservation.  If every ingested value lies in [lo, hi] and no arithmetic
overflows, then after any number of calls each of the four means and each of the 39 slots
is IntNA or lies in [lo, hi]; with non-negative inputs no mean is negative unless it is
still IntNA. -/
theorem C20_bounds_preservation (P : Platform) (hP : P.Conforming) (lo hi : Int)
    (vs : List Int) (hv : ∀ v ∈ vs, lo ≤ v ∧ v ≤ hi)
    (hno : NoOverflowRun P DataLog24H.DataLog24H vs) :
    (GetMean1M (ingest P vs) = IntNA ∨
      (lo ≤ GetMean1M (ingest P vs) ∧ GetMean1M (ingest P vs) ≤ hi)) ∧
    (GetMean5M (ingest P vs) = IntNA ∨
      (lo ≤ GetMean5M (ingest P vs) ∧ GetMean5M (ingest P vs) ≤ hi)) ∧
    (GetMean1H (ingest P vs) = IntNA ∨
      (lo ≤ GetMean1H (ingest P vs) ∧ GetMean1H (ingest P vs) ≤ hi)) ∧
    (GetMean24H (ingest P vs) = IntNA ∨
      (lo ≤ GetMean24H (ingest P vs) ∧ GetMean24H (ingest P vs) ≤ hi)) ∧
    (∀ w ∈ GetData (ingest P vs), w = IntNA ∨ (lo ≤ w ∧ w ≤ hi)) ∧
    (0 ≤ lo →
      (GetMean1M (ingest P vs) = IntNA ∨ 0 ≤ GetMean1M (ingest P vs)) ∧
      (GetMean5M (ingest P vs) = IntNA ∨ 0 ≤ GetMean5M (ingest P vs)) ∧
      (GetMean1H (ingest P vs) = IntNA ∨ 0 ≤ GetMean1H (ingest P vs)) ∧
      (GetMean24H (ingest P vs) = IntNA ∨ 0 ≤ GetMean24H (ingest P vs))) := by
  have hF := Filled_ingest P hP (fun v => lo ≤ v ∧ v ≤ hi)
    (meanClosed_and _ _ (meanClosed_ge lo) (meanClosed_le hi)) vs hv hno
  obtain ⟨m1, m5, m1h, m24⟩ := means_of_filled P _ vs hF
  obtain ⟨fA, fB, fC, _⟩ := hF
  obtain ⟨uA, uB, uC⟩ := ingest_unfilled P hP vs
  obtain ⟨hD, _, _, _⟩ := data_split _ (ingest_length P vs)
  unfold GetMean1M GetMean5M GetMean1H GetMean24H GetData
  refine ⟨m1, m5, m1h, m24, fun w hw => ?_, fun h0 => ⟨?_, ?_, ?_, ?_⟩⟩
  · rw [hD, List.mem_append, List.mem_append] at hw
    rcases hw with (hw | hw) | hw
    · exact slot_of_filled_unfilled _ _ _ fA uA w hw
    · exact slot_of_filled_unfilled _ _ _ fB uB w hw
    · exact slot_of_filled_unfilled _ _ _ fC uC w hw
  · exact m1.imp id fun h => le_trans h0 h.1
  · exact m5.imp id fun h => le_trans h0 h.1
  · exact m1h.imp id fun h => le_trans h0 h.1
  · exact m24.imp id fun h => le_trans h0 h.1

/-- C20 after 1..7 with lo = 1 and hi = 7. -/
theorem C20_bounds_preservation_witness :
    (GetMean5M (ingest zuno [1, 2, 3, 4, 5, 6, 7]) = IntNA ∨
      (1 ≤ GetMean5M (ingest zuno [1, 2, 3, 4, 5, 6, 7]) ∧
        GetMean5M (ingest zuno [1, 2, 3, 4, 5, 6, 7]) ≤ 7)) ∧
    (∀ w ∈ GetData (ingest zuno [1, 2, 3, 4, 5, 6, 7]), w = IntNA ∨ (1 ≤ w ∧ w ≤ 7)) ∧
    (GetMean1H (ingest zuno [1, 2, 3, 4, 5, 6, 7]) = IntNA ∨
      0 ≤ GetMean1H (ingest zuno [1, 2, 3, 4, 5, 6, 7])) :=
  ⟨(C20_bounds_preservation zuno (by decide) 1 7 [1, 2, 3, 4, 5, 6, 7] (by decide)
      (by decide)).2.1,
   (C20_bounds_preservation zuno (by decide) 1 7 [1, 2, 3, 4, 5, 6, 7] (by decide)
      (by decide)).2.2.2.2.1,
   ((C20_bounds_preservation zuno (by decide) 1 7 [1, 2, 3, 4, 5, 6, 7] (by decide)
      (by decide)).2.2.2.2.2 (by decide)).2.2.1⟩

/-! ## Runs of bounded values, and the call on which the counter wraps around -/

theorem sum_bounds (lo hi : Int) (L : List Int) (h : ∀ v ∈ L, lo ≤ v ∧ v ≤ hi) :
    (L.length : Int) * lo ≤ L.sum ∧ L.sum ≤ (L.length : Int) * hi := by
  constructor
  · have := List.card_nsmul_le_sum L lo (fun v hv => (h v hv).1)
    simpa using this
  · have := List.sum_le_card_nsmul L hi (fun v hv => (h v hv).2)
    simpa using this

theorem bounded_noOverflowStep (P : Platform) (hP : P.Conforming) (lo hi : Int)
    (hlo : P.InRange (24 * lo)) (hhi : P.InRange (24 * hi)) (vs : List Int)
    (hF : Filled (fun v => lo ≤ v ∧ v ≤ hi) vs.length (ingest P vs)) :
    NoOverflowStep P (ingest P vs) := by
  obtain ⟨_, hA, hB, hC⟩ := data_split _ (ingest_length P vs)
  have hc := newCounter_ingest_le P vs
  obtain ⟨fA, fB, fC, _⟩ := hF
  obtain ⟨_, hH⟩ := two_pow_intBits P hP.1
  have bA : 6 ≤ newCounter P (ingest P vs) →
      5 * lo ≤ (GetData1M (ingest P vs)).sum ∧ (GetData1M (ingest P vs)).sum ≤ 5 * hi := by
    intro h
    have := sum_bounds lo hi _ (PrefixAll_all _ _ _ fA (by omega))
    rw [hA] at this
    exact_mod_cast this
  have bB : 61 ≤ newCounter P (ingest P vs) →
      11 * lo ≤ (GetData5M (ingest P vs)).sum ∧ (GetData5M (ingest P vs)).sum ≤ 11 * hi := by
    intro h
    have := sum_bounds lo hi _ (PrefixAll_all _ _ _ fB (by omega))
    rw [hB] at this
    exact_mod_cast this
  have bC : 1441 ≤ newCounter P (ingest P vs) →
      23 * lo ≤ (GetData1H (ingest P vs)).sum ∧ (GetData1H (ingest P vs)).sum ≤ 23 * hi := by
    intro h
    have := sum_bounds lo hi _ (PrefixAll_all _ _ _ fC (by omega))
    rw [hC] at this
    exact_mod_cast this
  have rA : 6 ≤ newCounter P (ingest P vs) → P.InRange (GetData1M (ingest P vs)).sum := by
    intro h
    have := bA h
    unfold Platform.InRange at *
    omega
  have m5 : 6 ≤ newCounter P (ingest P vs) →
      lo ≤ new5M P (ingest P vs) ∧ new5M P (ingest P vs) ≤ hi := by
    intro h
    rw [new5M, wrapInt_of_inRange P hP.1 _ (rA h)]
    exact ⟨tdiv_ge _ _ 5 (by norm_num) (bA h).1, tdiv_le _ _ 5 (by norm_num) (bA h).2⟩
  have rB : 61 ≤ newCounter P (ingest P vs) →
      P.InRange (new5M P (ingest P vs) + (GetData5M (ingest P vs)).sum) := by
    intro h
    have := bB h
    have := m5 (by omega)
    unfold Platform.InRange at *
    omega
  have m1h : 61 ≤ newCounter P (ingest P vs) →
      lo ≤ new1H P (ingest P vs) ∧ new1H P (ingest P vs) ≤ hi := by
    intro h
    have := bB h
    have := m5 (by omega)
    rw [new1H, wrapInt_of_inRange P hP.1 _ (rB h)]
    exact ⟨tdiv_ge _ _ 12 (by norm_num) (by omega), tdiv_le _ _ 12 (by norm_num) (by omega)⟩
  refine ⟨rA, fun h => rB h.1, fun h => ?_⟩
  have := bC h.1
  have := m1h (by omega)
  unfold Platform.InRange at *
  omega

/-- Ingesting values between `lo` and `hi`, with `24 * lo` and `24 * hi` representable,
never overflows. -/
theorem bounded_run (P : Platform) (hP : P.Conforming) (lo hi : Int)
    (hlo : P.InRange (24 * lo)) (hhi : P.InRange (24 * hi)) (vs : List Int)
    (hv : ∀ v ∈ vs, lo ≤ v ∧ v ≤ hi) :
    Filled (fun v => lo ≤ v ∧ v ≤ hi) vs.length (ingest P vs) ∧
    NoOverflowRun P DataLog24H.DataLog24H vs := by
  induction vs using List.reverseRecOn with
  | nil => exact ⟨Filled_init _, trivial⟩
  | append_singleton vs x ih =>
    obtain ⟨hF, hrun⟩ := ih (fun v h => hv v (by simp [h]))
    have hno := bounded_noOverflowStep P hP lo hi hlo hhi vs hF
    refine ⟨?_, (NoOverflowRun_snoc P _ _ x).mpr ⟨hrun, hno⟩⟩
    rw [List.length_append, List.length_singleton]
    exact Filled_step P hP _ (meanClosed_and _ _ (meanClosed_ge lo) (meanClosed_le hi)) vs x
      (hv x (by simp)) hF hno

theorem getD_append_add (pre tail : List Int) (i : Nat) :
    (pre ++ tail).getD (pre.length + i) 0 = tail.getD i 0 := by
  rw [List.getD_append_right _ _ _ _ (by omega), Nat.add_sub_cancel_left]

theorem zuno_two_pow : 2 ^ zuno.ulongBits = 4294967296 := by decide

/-- On the 16 bit target the call number 2^32 wraps the counter to 0 and returns before
Mean5M is written: Mean5M stays the mean of the five values before the last but one. -/
theorem zuno_Mean5M_at_wrap (pre : List Int) (a b c d e x y : Int)
    (hlen : pre.length = 4294967289) (hsum : zuno.InRange (a + b + c + d + e)) :
    GetMean5M (ingest zuno (pre ++ [a, b, c, d, e, x, y])) = (a + b + c + d + e).tdiv 5 := by
  have e1 : pre ++ [a, b, c, d, e, x, y] = ((pre ++ [a, b, c, d, e]) ++ [x]) ++ [y] := by simp
  have hrev : ((pre ++ [a, b, c, d, e]).reverse.take 5).sum = a + b + c + d + e := by
    simp only [List.reverse_append, List.reverse_cons, List.reverse_nil, List.nil_append,
      List.cons_append, List.take_succ_cons, List.take_zero, List.sum_cons, List.sum_nil]
    ring
  have hl : (pre ++ [a, b, c, d, e]).length = 4294967294 := by
    rw [List.length_append, hlen]; rfl
  have hl2 : ((pre ++ [a, b, c, d, e]) ++ [x]).length = 4294967295 := by
    rw [List.length_append, hl]; rfl
  have h1 := ingest_Mean5M zuno (by decide) (pre ++ [a, b, c, d, e]) x (by omega)
    (by rw [hl, zuno_two_pow]; omega) (by rw [hrev]; exact hsum)
  rw [hrev] at h1
  unfold GetMean5M
  rw [e1, ingest_snoc, (AddData_means zuno _ y (ingest_length zuno _)).1, newCounter_ingest,
    hl2, zuno_two_pow, if_neg (by omega), h1]

/-- On the 16 bit target the call number 2^32 does not shift the 5-minute segment: slot 0
stays the mean of the block before the last complete block. -/
theorem zuno_5M_slot0_at_wrap (pre : List Int) (a b c d e f g h i j y : Int)
    (hlen : pre.length = 4294967285)
    (hno : NoOverflowRun zuno DataLog24H.DataLog24H (pre ++ [a, b, c, d, e, f, g, h, i, j])) :
    (GetData5M (ingest zuno (pre ++ [a, b, c, d, e, f, g, h, i, j, y])))[0]?
      = some ((a + b + c + d + e).tdiv 5) ∧
    blockMean (pre ++ [a, b, c, d, e, f, g, h, i, j, y])
      (((pre ++ [a, b, c, d, e, f, g, h, i, j, y]).length - 1) / 5 - 0)
      = (f + g + h + i + j).tdiv 5 := by
  have e1 : pre ++ [a, b, c, d, e, f, g, h, i, j, y]
      = (pre ++ [a, b, c, d, e, f, g, h, i, j]) ++ [y] := by simp
  have hl : (pre ++ [a, b, c, d, e, f, g, h, i, j]).length = 4294967295 := by
    rw [List.length_append, hlen]; rfl
  have hl2 : (pre ++ [a, b, c, d, e, f, g, h, i, j, y]).length = 4294967296 := by
    rw [List.length_append, hlen]; rfl
  have i0 : 5 * 858993458 - 5 = pre.length + 0 := by rw [hlen]
  have i1 : 5 * 858993458 - 4 = pre.length + 1 := by rw [hlen]
  have i2 : 5 * 858993458 - 3 = pre.length + 2 := by rw [hlen]
  have i3 : 5 * 858993458 - 2 = pre.length + 3 := by rw [hlen]
  have i4 : 5 * 858993458 - 1 = pre.length + 4 := by rw [hlen]
  have j0 : 5 * 858993459 - 5 = pre.length + 5 := by rw [hlen]
  have j1 : 5 * 858993459 - 4 = pre.length + 6 := by rw [hlen]
  have j2 : 5 * 858993459 - 3 = pre.length + 7 := by rw [hlen]
  have j3 : 5 * 858993459 - 2 = pre.length + 8 := by rw [hlen]
  have j4 : 5 * 858993459 - 1 = pre.length + 9 := by rw [hlen]
  constructor
  · have hb := ingest_blocks zuno (by decide) (pre ++ [a, b, c, d, e, f, g, h, i, j])
      (by rw [hl, zuno_two_pow]; omega) hno 0 (by rw [hl]; omega) (by omega)
    rw [hl] at hb
    have hm : (4294967295 - 1) / 5 - 0 = 858993458 := by rfl
    rw [hm] at hb
    rw [e1, ingest_snoc, (AddData_segments zuno _ y (ingest_length zuno _)).2.1,
      newCounter_ingest, hl, zuno_two_pow, if_neg (by omega), hb]
    unfold blockMean
    rw [i0, i1, i2, i3, i4, getD_append_add, getD_append_add, getD_append_add,
      getD_append_add, getD_append_add]
    rfl
  · rw [hl2]
    have hm : (4294967296 - 1) / 5 - 0 = 858993459 := by rfl
    rw [hm]
    unfold blockMean
    rw [j0, j1, j2, j3, j4, getD_append_add, getD_append_add, getD_append_add,
      getD_append_add, getD_append_add]
    rfl

/-! ## C17 and C18 on the call that wraps the counter around -/

/-- C17 as stated fails once the counter wraps around: on the 16 bit target, after
2^32 ingestions (2^32 - 7 times 0, then 5,0,0,0,0,0,0, no overflow of any sum) the last call
brings the counter to 0 and returns before Mean5M is written, so GetMean5M is still
(5+0+0+0+0)/5 = 1 and not (0+0+0+0+0)/5 = 0, the mean of the five values before the last. -/
theorem C17_counterexample :
    (List.replicate 4294967289 (0 : Int) ++ [5, 0, 0, 0, 0, 0, 0]).length = 2 ^ 32 ∧
    NoOverflowRun zuno DataLog24H.DataLog24H
      (List.replicate 4294967289 (0 : Int) ++ [5, 0, 0, 0, 0, 0, 0]) ∧
    GetMean5M (ingest zuno (List.replicate 4294967289 (0 : Int) ++ [5, 0, 0, 0, 0, 0, 0])) = 1 ∧
    GetMean5M (ingest zuno (List.replicate 4294967289 (0 : Int) ++ [5, 0, 0, 0, 0, 0, 0]))
      ≠ Int.tdiv (0 + 0 + 0 + 0 + 0) 5 := by
  have hv : ∀ v ∈ List.replicate 4294967289 (0 : Int) ++ [5, 0, 0, 0, 0, 0, 0],
      0 ≤ v ∧ v ≤ 5 := by
    intro v hv
    rcases List.mem_append.mp hv with h | h
    · rw [List.eq_of_mem_replicate h]; decide
    · exact (by decide : ∀ w ∈ [(5 : Int), 0, 0, 0, 0, 0, 0], 0 ≤ w ∧ w ≤ 5) v h
  have hm : GetMean5M
      (ingest zuno (List.replicate 4294967289 (0 : Int) ++ [5, 0, 0, 0, 0, 0, 0])) = 1 :=
    zuno_Mean5M_at_wrap (List.replicate 4294967289 0) 5 0 0 0 0 0 0
      (List.length_replicate _ _) (by decide)
  refine ⟨?_, (bounded_run zuno (by decide) 0 5 (by decide) (by decide) _ hv).2, hm, ?_⟩
  · rw [List.length_append, List.length_replicate]; rfl
  · exact fun h => absurd (hm.symm.trans h) (by decide)

/-- C18 as stated fails once the counter wraps around: on the 16 bit target, after
2^32 ingestions (2^32 - 11 times 0, then 5,5,5,5,5,0,0,0,0,0,0, no overflow of any sum) the
last call brings the counter to 0 and returns before the 5-minute segment is shifted, so
slot 0 still holds 5, the mean of block m - 1, and not 0, the mean of block m. -/
theorem C18_counterexample :
    (List.replicate 4294967285 (0 : Int) ++ [5, 5, 5, 5, 5, 0, 0, 0, 0, 0, 0]).length
      = 2 ^ 32 ∧
    NoOverflowRun zuno DataLog24H.DataLog24H
      (List.replicate 4294967285 (0 : Int) ++ [5, 5, 5, 5, 5, 0, 0, 0, 0, 0, 0]) ∧
    (GetData5M (ingest zuno
      (List.replicate 4294967285 (0 : Int) ++ [5, 5, 5, 5, 5, 0, 0, 0, 0, 0, 0])))[0]?
      = some 5 ∧
    blockMean (List.replicate 4294967285 (0 : Int) ++ [5, 5, 5, 5, 5, 0, 0, 0, 0, 0, 0])
      (((List.replicate 4294967285 (0 : Int)
          ++ [5, 5, 5, 5, 5, 0, 0, 0, 0, 0, 0]).length - 1) / 5 - 0) = 0 := by
  have hb : ∀ (tail : List Int), (∀ w ∈ tail, 0 ≤ w ∧ w ≤ 5) →
      ∀ v ∈ List.replicate 4294967285 (0 : Int) ++ tail, 0 ≤ v ∧ v ≤ 5 := by
    intro tail ht v hv
    rcases List.mem_append.mp hv with h | h
    · rw [List.eq_of_mem_replicate h]; decide
    · exact ht v h
  have hw := zuno_5M_slot0_at_wrap (List.replicate 4294967285 0) 5 5 5 5 5 0 0 0 0 0 0
    (List.length_replicate _ _)
    (bounded_run zuno (by decide) 0 5 (by decide) (by decide) _
      (hb [5, 5, 5, 5, 5, 0, 0, 0, 0, 0] (by decide))).2
  refine ⟨?_, (bounded_run zuno (by decide) 0 5 (by decide) (by decide) _
      (hb [5, 5, 5, 5, 5, 0, 0, 0, 0, 0, 0] (by decide))).2, hw.1, hw.2⟩
  rw [List.length_append, List.length_replicate]; rfl
